import Mathlib

/-
Verification of the resilient-response-extraction and validation pipeline of
the mini remediation engine (src/main.py).  Python strings are modelled as
List Char; each pyXxx definition below embeds the corresponding Python
string primitive (find / rfind / slice / strip / replace / split / lower),
including Python's negative-index adjustment rules.  The json.loads decoder
is embedded as a fuel-indexed recursive-descent parser following the json
module's grammar (strict mode: control characters in strings rejected,
trailing commas rejected, last duplicate key wins).
-/

set_option maxHeartbeats 2000000
set_option maxRecDepth 8192
set_option linter.unusedVariables false

/-- Python whitespace test used by str.strip() (ASCII fragment; every string
handled in this development is ASCII). -/
def isPySpace (c : Char) : Bool :=
  c == ' ' || c == '\t' || c == '\n' || c == '\r' || c == '\x0b' || c == '\x0c'

/-- Embedding of Python str.lower (ASCII range). -/
def pyLower (s : List Char) : List Char := s.map Char.toLower

/-- Leading-whitespace removal (left half of str.strip()). -/
def pyStripLeft (s : List Char) : List Char := s.dropWhile isPySpace

/-- Trailing-whitespace removal (right half of str.strip()). -/
def pyStripRight (s : List Char) : List Char := (s.reverse.dropWhile isPySpace).reverse

/-- Embedding of Python str.strip() with no argument. -/
def pyStrip (s : List Char) : List Char := pyStripRight (pyStripLeft s)

/-- Embedding of Python str.rstrip(c) for a one-character argument. -/
def pyRstripChar (s : List Char) (c : Char) : List Char :=
  (s.reverse.dropWhile (fun d => d == c)).reverse

/-- The pattern pat occurs in s starting at position i. -/
def occursAt (s pat : List Char) (i : Nat) : Prop := pat.isPrefixOf (s.drop i)

instance occursAtDec (s pat : List Char) (i : Nat) : Decidable (occursAt s pat i) := by
  unfold occursAt; infer_instance

/-- Index of the first occurrence of pat in l, if any. -/
def firstOcc (pat : List Char) : List Char → Option Nat
  | [] => if pat.isEmpty then some 0 else none
  | a :: l => if pat.isPrefixOf (a :: l) then some 0 else (firstOcc pat l).map (· + 1)

/-- Index of the last occurrence of pat in l, if any. -/
def lastOcc (pat : List Char) : List Char → Option Nat
  | [] => if pat.isEmpty then some 0 else none
  | a :: l =>
    match lastOcc pat l with
    | some k => some (k + 1)
    | none => if pat.isPrefixOf (a :: l) then some 0 else none

/-- Embedding of the Python substring test, pat in s. -/
def pyIn (pat s : List Char) : Bool := (firstOcc pat s).isSome

/-- First occurrence of pat in s at a position that is at least a. -/
def pyFindFrom (s pat : List Char) (a : Nat) : Option Nat :=
  (firstOcc pat (s.drop a)).map (· + a)

/-- Python index adjustment for a start argument of str.find / str.rfind:
a negative index counts from the end of the string and clamps at 0. -/
def pyAdjStart (i : Int) (len : Nat) : Nat :=
  if i < 0 then ((len : Int) + i).toNat else i.toNat

/-- Python index adjustment for an end argument: negative counts from the
end, nonnegative clamps at the length. -/
def pyAdjEnd (i : Int) (len : Nat) : Nat :=
  if i < 0 then ((len : Int) + i).toNat else min i.toNat len

/-- Embedding of Python s.find(pat, start): -1 when absent. -/
def pyFind (s pat : List Char) (start : Int) : Int :=
  match pyFindFrom s pat (pyAdjStart start s.length) with
  | some m => (m : Int)
  | none => -1

/-- Embedding of Python s.rfind(pat, start, end): the largest index i with
start' ≤ i and i + pat.length ≤ end' at which pat occurs, -1 when absent. -/
def pyRfind (s pat : List Char) (start endIdx : Int) : Int :=
  match lastOcc pat (s.take (pyAdjEnd endIdx s.length)) with
  | some k => if pyAdjStart start s.length ≤ k then (k : Int) else -1
  | none => -1

/-- Slice s[a:b] for nonnegative bounds. -/
def pySliceNat (s : List Char) (a b : Nat) : List Char := (s.take b).drop a

/-- Embedding of the Python slice s[a:b] with full negative-index rules. -/
def pySlice (s : List Char) (a b : Int) : List Char :=
  pySliceNat s (pyAdjEnd a s.length) (pyAdjEnd b s.length)

/-- Embedding of Python s.split(sep) for a one-character separator
(keeps empty fields, as Python does). -/
def pySplitAux (sep : Char) : List Char → List Char → List (List Char)
  | [], acc => [acc.reverse]
  | a :: l, acc => if a == sep then acc.reverse :: pySplitAux sep l [] else pySplitAux sep l (a :: acc)

/-- Embedding of Python s.split(sep). -/
def pySplit (s : List Char) (sep : Char) : List (List Char) := pySplitAux sep s []

/-- Fuel-indexed worker for str.replace: scans left to right, replacing each
non-overlapping occurrence of pat by rep. -/
def pyReplaceAux : Nat → List Char → List Char → List Char → List Char
  | 0, l, _, _ => l
  | _, [], _, _ => []
  | fuel + 1, a :: l, pat, rep =>
    if pat.isPrefixOf (a :: l) && !pat.isEmpty then
      rep ++ pyReplaceAux fuel (l.drop (pat.length - 1)) pat rep
    else
      a :: pyReplaceAux fuel l pat rep

/-- Embedding of Python s.replace(pat, rep) (pat nonempty in every use). -/
def pyReplace (s pat rep : List Char) : List Char := pyReplaceAux s.length s pat rep

/-- The unescaping chain of the fallback parser, in source order:
escaped-newline, then escaped-quote, then escaped-backslash. -/
def unescFixed (s : List Char) : List Char :=
  pyReplace (pyReplace (pyReplace s ('\\' :: ['n']) ['\n']) ('\\' :: ['"']) ['"']) ('\\' :: ['\\']) ['\\']

/-- JSON values as produced by Python's json.loads.  Numbers are kept as
their source lexeme (no claim inspects a numeric value beyond zero-ness);
objects carry Python-dict association lists with unique keys in insertion
order (a later duplicate key overwrites the value in place, as in Python). -/
inductive Json where
  | null : Json
  | bool (b : Bool) : Json
  | num (lexeme : List Char) : Json
  | str (s : List Char) : Json
  | arr (items : List Json) : Json
  | obj (entries : List (List Char × Json)) : Json

/-- A Python dict with string keys and JSON values. -/
abbrev PyDict := List (List Char × Json)

/-- Python dict assignment d[k] = v: overwrite in place if the key exists,
otherwise append. -/
def dictInsert (d : PyDict) (k : List Char) (v : Json) : PyDict :=
  if d.any (fun p => p.1 == k) then d.map (fun p => if p.1 == k then (k, v) else p)
  else d ++ [(k, v)]

/-- Python dict lookup (keys are unique by construction). -/
def pyDictGet (d : PyDict) (k : List Char) : Option Json :=
  (d.find? (fun p => p.1 == k)).map (·.2)

/-- Whitespace skipped between JSON tokens by the json module. -/
def jsonWs (c : Char) : Bool := c == ' ' || c == '\t' || c == '\n' || c == '\r'

/-- Hexadecimal digit value. -/
def hexDigit (c : Char) : Option Nat :=
  if '0' ≤ c && c ≤ '9' then some (c.toNat - 48)
  else if 'a' ≤ c && c ≤ 'f' then some (c.toNat - 87)
  else if 'A' ≤ c && c ≤ 'F' then some (c.toNat - 55)
  else none

/-- Lexer for the body of a JSON string (after the opening quote), strict
mode: raw control characters below 0x20 are rejected, unknown escapes are
rejected.  A \uXXXX escape becomes the scalar via Char.ofNat (surrogate
pairs are not recombined; no payload in this development uses \u). -/
def jsonStrBody : Nat → List Char → Option (List Char × List Char)
  | 0, _ => none
  | _, [] => none
  | fuel + 1, c :: rest =>
    if c == '"' then some ([], rest)
    else if c == '\\' then
      match rest with
      | [] => none
      | e :: rest2 =>
        if e == 'u' then
          match rest2 with
          | h1 :: h2 :: h3 :: h4 :: rest3 =>
            match hexDigit h1, hexDigit h2, hexDigit h3, hexDigit h4 with
            | some a, some b, some c2, some d =>
              match jsonStrBody fuel rest3 with
              | some (tail, r) => some (Char.ofNat (((a * 16 + b) * 16 + c2) * 16 + d) :: tail, r)
              | none => none
            | _, _, _, _ => none
          | _ => none
        else
          match (if e == '"' then some '"' else if e == '\\' then some '\\'
                 else if e == '/' then some '/' else if e == 'b' then some '\x08'
                 else if e == 'f' then some '\x0c' else if e == 'n' then some '\n'
                 else if e == 'r' then some '\r' else if e == 't' then some '\t'
                 else none) with
          | some d =>
            match jsonStrBody fuel rest2 with
            | some (tail, r) => some (d :: tail, r)
            | none => none
          | none => none
    else if c.toNat < 32 then none
    else
      match jsonStrBody fuel rest with
      | some (tail, r) => some (c :: tail, r)
      | none => none

/-- Decimal digit test. -/
def isDigitCh (c : Char) : Bool := '0' ≤ c && c ≤ '9'

/-- Optional fraction group of the json module's number regex. -/
def jsonFrac (s : List Char) : List Char × List Char :=
  match s with
  | '.' :: t =>
    let ds := t.takeWhile isDigitCh
    if ds.isEmpty then ([], s) else ('.' :: ds, t.drop ds.length)
  | _ => ([], s)

/-- Optional exponent group of the json module's number regex. -/
def jsonExp (s : List Char) : List Char × List Char :=
  match s with
  | e :: t =>
    if e == 'e' || e == 'E' then
      let (sg, t2) : List Char × List Char :=
        match t with
        | '+' :: u => (['+'], u)
        | '-' :: u => (['-'], u)
        | _ => ([], t)
      let ds := t2.takeWhile isDigitCh
      if ds.isEmpty then ([], s) else (e :: (sg ++ ds), t2.drop ds.length)
    else ([], s)
  | [] => ([], s)

/-- Lexer for a JSON number at the head of s, following the json module's
regex -?(0|[1-9]Digit*)(.Digit+)?([eE][+-]?Digit+)?. -/
def jsonNumber (s : List Char) : Option (List Char × List Char) :=
  let (sign, s1) : List Char × List Char :=
    match s with
    | '-' :: t => (['-'], t)
    | _ => ([], s)
  match s1 with
  | [] => none
  | c :: t =>
    if c == '0' then
      let (fr, s2) := jsonFrac t
      let (ex, s3) := jsonExp s2
      some (sign ++ ['0'] ++ fr ++ ex, s3)
    else if isDigitCh c then
      let ds := t.takeWhile isDigitCh
      let s2 := t.drop ds.length
      let (fr, s3) := jsonFrac s2
      let (ex, s4) := jsonExp s3
      some (sign ++ (c :: ds) ++ fr ++ ex, s4)
    else none

mutual
/-- Fuel-indexed recursive-descent parser for one JSON value. -/
def jsonVal : Nat → List Char → Except Unit (Json × List Char)
  | 0, _ => .error ()
  | fuel + 1, s0 =>
    match s0.dropWhile jsonWs with
    | [] => .error ()
    | c :: rest =>
      if c == '\x7b' then jsonMembers fuel rest true []
      else if c == '[' then jsonItems fuel rest true []
      else if c == '"' then
        match jsonStrBody (rest.length + 1) rest with
        | some (body, r) => .ok (.str body, r)
        | none => .error ()
      else if c == 't' then
        if rest.take 3 = ['r', 'u', 'e'] then .ok (.bool true, rest.drop 3) else .error ()
      else if c == 'f' then
        if rest.take 4 = ['a', 'l', 's', 'e'] then .ok (.bool false, rest.drop 4) else .error ()
      else if c == 'n' then
        if rest.take 3 = ['u', 'l', 'l'] then .ok (.null, rest.drop 3) else .error ()
      else
        match jsonNumber (c :: rest) with
        | some (lex, r) => .ok (.num lex, r)
        | none =>
          if c == 'N' then
            if rest.take 2 = ['a', 'N'] then .ok (.num ['N', 'a', 'N'], rest.drop 2) else .error ()
          else if c == 'I' then
            if rest.take 7 = ('n' :: "finity".data) then .ok (.num ('I' :: 'n' :: "finity".data), rest.drop 7)
            else .error ()
          else if c == '-' then
            if rest.take 8 = ('I' :: 'n' :: "finity".data) then
              .ok (.num ('-' :: 'I' :: 'n' :: "finity".data), rest.drop 8)
            else .error ()
          else .error ()

/-- Object members after the opening brace; atStart is true just after it
(only then may a closing brace follow directly — trailing commas are
rejected, as in strict json). -/
def jsonMembers : Nat → List Char → Bool → PyDict → Except Unit (Json × List Char)
  | 0, _, _, _ => .error ()
  | fuel + 1, s0, atStart, acc =>
    match s0.dropWhile jsonWs with
    | [] => .error ()
    | c :: rest =>
      if atStart && c == '\x7d' then .ok (.obj acc, rest)
      else if c == '"' then
        match jsonStrBody (rest.length + 1) rest with
        | some (key, r1) =>
          match r1.dropWhile jsonWs with
          | ':' :: r3 =>
            match jsonVal fuel r3 with
            | .ok (v, r4) =>
              match r4.dropWhile jsonWs with
              | ',' :: r6 => jsonMembers fuel r6 false (dictInsert acc key v)
              | '\x7d' :: r6 => .ok (.obj (dictInsert acc key v), r6)
              | _ => .error ()
            | .error _ => .error ()
          | _ => .error ()
        | none => .error ()
      else .error ()

/-- Array items after the opening bracket; atStart as for objects. -/
def jsonItems : Nat → List Char → Bool → List Json → Except Unit (Json × List Char)
  | 0, _, _, _ => .error ()
  | fuel + 1, s0, atStart, acc =>
    match s0.dropWhile jsonWs with
    | [] => .error ()
    | c :: rest =>
      if atStart && c == ']' then .ok (.arr acc.reverse, rest)
      else
        match jsonVal fuel (c :: rest) with
        | .ok (v, r1) =>
          match r1.dropWhile jsonWs with
          | ',' :: r3 => jsonItems fuel r3 false (v :: acc)
          | ']' :: r3 => .ok (.arr (v :: acc).reverse, r3)
          | _ => .error ()
        | .error _ => .error ()
end

/-- Embedding of Python json.loads: decode one value, then require only
whitespace to remain (else the Extra data error). -/
def jsonLoads (s : List Char) : Except Unit Json :=
  match jsonVal (s.length + 1) s with
  | .ok (v, rest) => if (rest.dropWhile jsonWs).isEmpty then .ok v else .error ()
  | .error _ => .error ()

/-- chr(96), the backtick, as in the source's triple_backtick = chr(96) * 3. -/
def backtick : Char := Char.ofNat 96

/-- The fence marker, triple_backtick in the source. -/
def tripleBacktick : List Char := [backtick, backtick, backtick]

/-- The JSON-tagged fence opener (triple_backtick + the json tag). -/
def fenceJson : List Char := tripleBacktick ++ "json".data

/-- The python-tagged fence opener used by the fixed-code cleanup. -/
def fencePython : List Char := tripleBacktick ++ "python".data

def hasIssuesKey : List Char := "has_issues".data

def issuesKey : List Char := "issues_found".data

def fixedKey : List Char := "fixed_code".data

def issuesKeyQuoted : List Char := "\"issues_found\"".data

def fixedKeyQuoted : List Char := "\"fixed_code\"".data

def trueLit : List Char := "true".data

def quoteCh : Char := '"'

def braceClose : List Char := "\x7d".data

/-- Line 81: start of the payload slice in the json-fenced case (the fence
position plus the literal 7 of the source). -/
def epJsonStart (s : List Char) : Int := pyFind s fenceJson 0 + 7

/-- Line 82: end of the payload slice in the json-fenced case. -/
def epJsonEnd (s : List Char) : Int := pyFind s tripleBacktick (epJsonStart s)

/-- Line 85: start of the payload slice in the bare-fence case. -/
def epBareStart (s : List Char) : Int := pyFind s tripleBacktick 0 + 3

/-- Line 86: end of the payload slice in the bare-fence case. -/
def epBareEnd (s : List Char) : Int := pyFind s tripleBacktick (epBareStart s)

/-- Lines 75-89 of parse_llm_response: isolate the JSON-like payload from
the raw response, handling markdown code fences. -/
def extractPayload (responseText : List Char) : List Char :=
  if pyIn fenceJson responseText then
    pyStrip (pySlice responseText (epJsonStart responseText) (epJsonEnd responseText))
  else if pyIn tripleBacktick responseText then
    pyStrip (pySlice responseText (epBareStart responseText) (epBareEnd responseText))
  else pyStrip responseText

/-- Lines 108-118: the alternating double-quote scan that collects the spans
between consecutive quote pairs of the issues array text. -/
def scanQuotes : Nat → List Char → Nat → List (List Char)
  | 0, _, _ => []
  | fuel + 1, t, current =>
    match pyFindFrom t [quoteCh] current with
    | none => []
    | some q1 =>
      match pyFindFrom t [quoteCh] (q1 + 1) with
      | none => []
      | some q2 => pySliceNat t (q1 + 1) q2 :: scanQuotes fuel t (q2 + 1)

/-- Lines 98-101 of the fallback: the permissive has_issues heuristic, a
substring test for the token true anywhere in the lowercased payload. -/
def fallbackHas (jsonStr : List Char) : Bool := pyIn trueLit (pyLower jsonStr)

/-- Line 103: issues_start, position of the quoted issues_found key. -/
def fbIssuesStart (jsonStr : List Char) : Int := pyFind jsonStr issuesKeyQuoted 0

/-- Line 105: array_start, first bracket at or after the key. -/
def fbArrayStart (jsonStr : List Char) : Int := pyFind jsonStr ['['] (fbIssuesStart jsonStr)

/-- Line 106: array_end, first closing bracket at or after array_start. -/
def fbArrayEnd (jsonStr : List Char) : Int := pyFind jsonStr [']'] (fbArrayStart jsonStr)

/-- Line 107: issues_text, the slice between the brackets. -/
def fbIssuesText (jsonStr : List Char) : List Char :=
  pySlice jsonStr (fbArrayStart jsonStr + 1) (fbArrayEnd jsonStr)

/-- Lines 103-119 of the fallback: the issues_found recovery — first key
occurrence, first bracket span after it, alternating quote scan inside it.
none when the quoted key is absent (the field keeps its default). -/
def fallbackIssues (jsonStr : List Char) : Option (List (List Char)) :=
  if fbIssuesStart jsonStr ≠ -1 then
    some (scanQuotes ((fbIssuesText jsonStr).length + 1) (fbIssuesText jsonStr) 0)
  else none

/-- Line 121: code_start, position of the quoted fixed_code key. -/
def fbCodeStart (jsonStr : List Char) : Int := pyFind jsonStr fixedKeyQuoted 0

/-- Line 123: quote_start, one past the first quote at or after the key
position plus the literal 13 of the source. -/
def fbQuoteStart (jsonStr : List Char) : Int :=
  pyFind jsonStr [quoteCh] (fbCodeStart jsonStr + 13) + 1

/-- Line 124: closing_brace, the last closing brace of the payload. -/
def fbClosingBrace (jsonStr : List Char) : Int :=
  pyRfind jsonStr braceClose 0 (jsonStr.length : Int)

/-- Line 125: quote_end, the last quote between quote_start and
closing_brace. -/
def fbQuoteEnd (jsonStr : List Char) : Int :=
  pyRfind jsonStr [quoteCh] (fbQuoteStart jsonStr) (fbClosingBrace jsonStr)

/-- Lines 121-131 of the fallback: the fixed_code recovery — greedy capture
between quote_start and quote_end, then the unescape chain and a strip.
none when the key is absent or no quote pair is found. -/
def fallbackFixed (jsonStr : List Char) : Option (List Char) :=
  if fbCodeStart jsonStr ≠ -1 then
    if fbQuoteStart jsonStr < fbQuoteEnd jsonStr then
      some (pyStrip (unescFixed (pySlice jsonStr (fbQuoteStart jsonStr) (fbQuoteEnd jsonStr))))
    else none
  else none

/-- Lines 96-131: the tolerant manual fallback dict built when json.loads
fails on the payload, assembled in the source's assignment order. -/
def fallbackScan (jsonStr : List Char) : PyDict :=
  let d0 : PyDict := dictInsert [] hasIssuesKey (.bool (fallbackHas jsonStr))
  let d1 :=
    match fallbackIssues jsonStr with
    | some issues => dictInsert d0 issuesKey (.arr (issues.map .str))
    | none => d0
  match fallbackFixed jsonStr with
  | some f => dictInsert d1 fixedKey (.str f)
  | none => d1

/-- Line 136: start of the nested-fence slice in the python-tagged case
(the fence position plus the literal 9 of the source). -/
def sfPyStart (code : List Char) : Int := pyFind code fencePython 0 + 9

/-- Line 137: end of the nested-fence slice in the python-tagged case. -/
def sfPyEnd (code : List Char) : Int := pyFind code tripleBacktick (sfPyStart code)

/-- Line 141: start of the nested-fence slice in the bare-fence case. -/
def sfBareStart (code : List Char) : Int := pyFind code tripleBacktick 0 + 3

/-- Line 142: end of the nested-fence slice in the bare-fence case. -/
def sfBareEnd (code : List Char) : Int := pyFind code tripleBacktick (sfBareStart code)

/-- Lines 133-144 applied to a string value of fixed_code: strip one nested
code fence, leaving the value unchanged when no closing fence is found. -/
def sanitizeFixed (code : List Char) : List Char :=
  if pyIn fencePython code then
    if sfPyEnd code ≠ -1 then pyStrip (pySlice code (sfPyStart code) (sfPyEnd code)) else code
  else if pyIn tripleBacktick code then
    if sfBareEnd code ≠ -1 then pyStrip (pySlice code (sfBareStart code) (sfBareEnd code)) else code
  else code

/-- Python exception flavours that the pipeline can raise. -/
inductive PyErr where
  | typeError : PyErr
  | attrError : PyErr
deriving DecidableEq

/-- Python x in v for a string x and an arbitrary value v: substring test on
a str, element membership on a list, key membership on a dict, TypeError on
non-iterable values. -/
def pyInJson (pat : List Char) : Json → Except PyErr Bool
  | .str s => .ok (pyIn pat s)
  | .arr l => .ok (l.any (fun x => match x with | .str s => s == pat | _ => false))
  | .obj l => .ok (l.any (fun p => p.1 == pat))
  | _ => .error .typeError

/-- Python len(v): TypeError on values without a length. -/
def pyLenJson : Json → Except PyErr Nat
  | .str s => .ok s.length
  | .arr l => .ok l.length
  | .obj l => .ok l.length
  | _ => .error .typeError

/-- Python v[:n] slicing: sequences only, TypeError otherwise. -/
def pySliceJsonTake (n : Nat) : Json → Except PyErr Json
  | .str s => .ok (.str (s.take n))
  | .arr l => .ok (.arr (l.take n))
  | _ => .error .typeError

/-- Nonzero test on a JSON number lexeme: the mantissa holds a nonzero
digit, or the lexeme is NaN/Infinity (both truthy in Python). -/
def numLexemeNonzero (lex : List Char) : Bool :=
  (lex.takeWhile (fun c => !(c == 'e' || c == 'E'))).any (fun c => '1' ≤ c && c ≤ '9') ||
    lex.any (fun c => c == 'N' || c == 'I')

/-- Python truthiness of a JSON value. -/
def pyTruthy : Json → Bool
  | .null => false
  | .bool b => b
  | .num lex => numLexemeNonzero lex
  | .str s => !s.isEmpty
  | .arr l => !l.isEmpty
  | .obj l => !l.isEmpty

/-- Lines 133-144 on the result dict, including the TypeError (membership
test on a non-iterable) and AttributeError (.find on a list or dict) that a
non-string fixed_code value causes. -/
def applySanitize (d : PyDict) : Except PyErr PyDict :=
  match pyDictGet d fixedKey with
  | none => .ok d
  | some (.str code) => .ok (dictInsert d fixedKey (.str (sanitizeFixed code)))
  | some v => do
    let b1 ← pyInJson fencePython v
    if b1 then .error .attrError
    else
      let b2 ← pyInJson tripleBacktick v
      if b2 then .error .attrError else .ok d

/-- Lines 146-155: the debug-print argument expressions.  They are evaluated
even when debug mode is off, and raise TypeError on ill-typed field values
(len of a non-sized issues_found, or slicing a non-sequence). -/
def debugEval (d : PyDict) : Except PyErr PyDict := do
  let _ ← pyLenJson ((pyDictGet d issuesKey).getD (.arr []))
  let _ ← pyLenJson ((pyDictGet d fixedKey).getD (.str []))
  if (pyDictGet d fixedKey).isNone || !pyTruthy ((pyDictGet d fixedKey).getD (.str [])) then
    if (pyDictGet d issuesKey).isSome then
      let _ ← pySliceJsonTake 3 ((pyDictGet d issuesKey).getD .null)
      pure d
    else pure d
  else pure d

/-- Lines 73-157: the whole parse_llm_response.  The Except layer records
the exceptions Python can raise; only json.loads is guarded by the
function's own try/except.  A payload that decodes to a non-dict value
raises at the membership test of line 133, at the indexing of line 134, or
at the .get call of line 147. -/
def parseLlmResponse (responseText : List Char) : Except PyErr PyDict := do
  let jsonStr := extractPayload responseText
  let d ← match jsonLoads jsonStr with
    | .ok (.obj entries) => pure entries
    | .ok v => do
      let b ← pyInJson fixedKey v
      if b then throw PyErr.typeError else throw PyErr.attrError
    | .error _ => pure (fallbackScan jsonStr)
  let d2 ← applySanitize d
  debugEval d2

/-- The placeholder list of validate_fixed_code (lines 164-171). -/
def placeholders : List (List Char) :=
  ["corrected code here".data, "fixed code here".data, "code here".data,
   "your code here".data, "insert code".data, "# TODO".data]

/-- The first placeholder of the loop at lines 174-177 that fires: it is
contained in the lowercased fixed code and not in the lowercased original
code. -/
def placeholderHit (originalCode fixedCode : List Char) : Option (List Char) :=
  placeholders.find? (fun p => pyIn p (pyLower fixedCode) && !pyIn p (pyLower originalCode))

/-- Lines 159-191: validate_fixed_code.  The language-specific syntax check
(the compile call of line 186) is the abstract syntax-validity collaborator
of the spec, passed in as compileOk.  The shrinkage comparison
len(fixed) < len(original) * 0.5 is rendered exactly. -/
def validateFixedCode (compileOk : List Char → List Char → Bool)
    (originalCode fixedCode filename : List Char) : Bool :=
  match placeholderHit originalCode fixedCode with
  | some _ => false
  | none =>
    if 2 * fixedCode.length < originalCode.length then false
    else compileOk fixedCode filename

/-- Lines 197-205: repository-identifier normalization of clone_and_fix;
none models the InvalidIdentifier abort when fewer than two
slash-separated parts remain. -/
def resolveRepoId (repoUrl : List Char) : Option (List Char × List Char) :=
  let u1 := pyRstripChar repoUrl '/'
  let u2 := pyReplace u1 (".git".data) []
  let parts := pySplit (pyReplace u2 ("https://github.com/".data) []) '/'
  match parts with
  | owner :: name :: _ => some (owner, name)
  | _ => none

/-- Side-effecting collaborator calls of clone_and_fix, in program order. -/
inductive Effect where
  | write : Effect
  | branch : Effect
  | commit : Effect
  | push : Effect
  | openPR : Effect
deriving DecidableEq

/-- Terminal outcome of one clone_and_fix run; failed is the generic
catch-all except of lines 309-313. -/
inductive Outcome where
  | invalidIdentifier : Outcome
  | fileNotFound : Outcome
  | analysisFailed : Outcome
  | parseFailed : Outcome
  | noIssues : Outcome
  | noFixProvided : Outcome
  | validationFailed : Outcome
  | prCreated : Outcome
  | failed : Outcome
deriving DecidableEq

/-- Results of the external collaborators of one run (hosting access,
clone, file read, text-generation, syntax validity), per section 6 of the
spec: the core is agnostic of their transport, so their results are inputs
of the embedding. -/
structure Collab where
  getRepoOk : Bool
  cloneOk : Bool
  fileExists : Bool
  originalContent : List Char
  analysis : Option (List Char)
  compileOk : List Char → List Char → Bool

/-- Iterating enumerate(issues, 1) at line 261 raises TypeError on a
non-iterable issues value. -/
def iterRaises : Json → Bool
  | .null => true
  | .bool _ => true
  | .num _ => true
  | _ => false

/-- The commit-message expression of lines 274-276: issues[:3] sliced then
joined; slicing a dict raises, and joining non-string elements raises. -/
def commitMsgOk : Json → Bool
  | .arr l => (l.take 3).all (fun x => match x with | .str _ => true | _ => false)
  | .str _ => true
  | _ => false

/-- Lines 193-313: clone_and_fix.  Returns the terminal outcome and the
ordered list of side-effecting collaborator calls that completed before
termination.  The enclosing try/except maps any exception raised after the
hosting lookup to the generic failure print (outcome failed); the git and
hosting calls past the Collab inputs are modelled as reliable, since no
claim concerns their failure. -/
def cloneAndFix (c : Collab) (repoUrl filePath baseBranch : List Char) :
    Outcome × List Effect :=
  match resolveRepoId repoUrl with
  | none => (.invalidIdentifier, [])
  | some _ =>
    if !c.getRepoOk then (.failed, [])
    else if !c.cloneOk then (.failed, [])
    else if !c.fileExists then (.fileNotFound, [])
    else
      match c.analysis with
      | none => (.analysisFailed, [])
      | some analysisText =>
        if analysisText.isEmpty then (.analysisFailed, [])
        else
          match parseLlmResponse analysisText with
          | .error _ => (.parseFailed, [])
          | .ok d =>
            if !pyTruthy ((pyDictGet d hasIssuesKey).getD (.bool false)) then (.noIssues, [])
            else
              let issuesVal := (pyDictGet d issuesKey).getD (.arr [])
              let fixedVal := (pyDictGet d fixedKey).getD (.str [])
              if !pyTruthy fixedVal then (.noFixProvided, [])
              else
                match fixedVal with
                | .str fixedCode =>
                  if !validateFixedCode c.compileOk c.originalContent fixedCode filePath then
                    (.validationFailed, [])
                  else if iterRaises issuesVal then (.failed, [])
                  else if !commitMsgOk issuesVal then (.failed, [.write, .branch])
                  else (.prCreated, [.write, .branch, .commit, .push, .openPR])
                | _ => (.failed, [])

/-- Character of s at index i, if any. -/
def charAt (s : List Char) (i : Nat) : Option Char := (s.drop i).head?

/-- The dict parse_llm_response returns on the fallback path, after the
fence cleanup of lines 133-144 has been applied to the recovered
fixed_code value. -/
def fallbackResult (jsonStr : List Char) : PyDict :=
  match fallbackFixed jsonStr with
  | some f => dictInsert (fallbackScan jsonStr) fixedKey (.str (sanitizeFixed f))
  | none => fallbackScan jsonStr

/-- fixed_code, when present, maps to a string, and issues_found, when
present, to an array: the field shapes on which the structured success
path of parse_llm_response cannot raise. -/
def fieldsWellTyped (d : PyDict) : Bool :=
  (match pyDictGet d fixedKey with
   | some (.str _) => true | none => true | some _ => false) &&
  (match pyDictGet d issuesKey with
   | some (.arr _) => true | none => true | some _ => false)

/-- The three-case payload-selection algorithm exactly as claim C6 words
it: if a JSON-tagged fence opener is present, the payload is everything
between that opener (skipping the tag) and the next occurrence of the
closing fence marker; else, with a bare marker present, everything between
the first marker and the next disjoint occurrence; else the whole text
trimmed of surrounding whitespace.  none when the closing marker the claim
refers to does not exist (that case is the subject of claim C10). -/
def extractPayloadSpec (responseText : List Char) : Option (List Char) :=
  if pyIn fenceJson responseText then
    match firstOcc fenceJson responseText with
    | some i =>
      match pyFindFrom responseText tripleBacktick (i + 7) with
      | some e => some (pySliceNat responseText (i + 7) e)
      | none => none
    | none => none
  else if pyIn tripleBacktick responseText then
    match firstOcc tripleBacktick responseText with
    | some i =>
      match pyFindFrom responseText tripleBacktick (i + 3) with
      | some e => some (pySliceNat responseText (i + 3) e)
      | none => none
    | none => none
  else some (pyStrip responseText)

example : pyStrip ("  ab c  ".data) = "ab c".data := by decide
example : pyFind ("abcabc".data) ("bc".data) 0 = 1 := by decide
example : pyFind ("abcabc".data) ("bc".data) 2 = 4 := by decide
example : pyFind ("abc".data) ("d".data) (-1) = -1 := by decide
example : pyRfind ("a\x7db\x7dc".data) ("\x7d".data) 0 5 = 3 := by decide
example : pySlice ("abcdef".data) 1 (-1) = "bcde".data := by decide
example : pySlice ("abcdef".data) 3 2 = [] := by decide
example : pySplit ("a/b//c".data) '/' = ["a".data, "b".data, [], "c".data] := by decide
example : pyReplace ("x.gity.git".data) (".git".data) [] = "xy".data := by decide
example : unescFixed ("a\\nb\\\"c".data) = "a\nb\"c".data := by decide
example : pyRstripChar ("ab//".data) '/' = "ab".data := by decide
example : jsonLoads ("true".data) = .ok (.bool true) := rfl
example : jsonLoads (" \x7b\"a\": [1, \"x\"], \"a\": false\x7d ".data) =
    .ok (.obj [("a".data, .bool false)]) := rfl
example : jsonLoads ("\x7b\"a\": 1,\x7d".data) = .error () := rfl
example : jsonLoads ("\x7b\"a\": \"b\nc\"\x7d".data) = .error () := rfl
example : jsonLoads ("\x7b\"has_issues\": false, \"issues_found\": [], \"fixed_code\": \"\"\x7d".data) =
    .ok (.obj [("has_issues".data, .bool false), ("issues_found".data, .arr []),
               ("fixed_code".data, .str [])]) := rfl
example : jsonLoads ("12e5".data) = .ok (.num ("12e5".data)) := rfl
example : jsonLoads ("01".data) = .error () := rfl
example : parseLlmResponse ("true".data) = .error .typeError := rfl
example : parseLlmResponse ("```json\n\x7b\"a\": 1\x7d\n``` extra".data) =
    .ok [("a".data, .num ['1'])] := rfl
example : extractPayload ("```json\n\x7b\"a\": 1\x7d\n``` extra".data) = "\x7b\"a\": 1\x7d".data := rfl
example : parseLlmResponse ("\x7b\"has_issues\": false, \"issues_found\": [], \"fixed_code\": \"\"\x7d".data) =
    .ok [("has_issues".data, .bool false), ("issues_found".data, .arr []),
         ("fixed_code".data, .str [])] := rfl
example : parseLlmResponse ("\x7b\"has_issues\": true, \"issues_found\": [\"a\",\"b\"], \"fixed_code\": \"x\",\x7d".data) =
    .ok [("has_issues".data, .bool true),
         ("issues_found".data, .arr [.str ['a'], .str ['b']]),
         ("fixed_code".data, .str ['x'])] := rfl
example : sanitizeFixed ("```python\ndef f(): pass\n```".data) = "def f(): pass".data := rfl

theorem occursAt_zero_iff (pat l : List Char) :
    occursAt l pat 0 ↔ pat.isPrefixOf l = true := by
  unfold occursAt; simp

theorem occursAt_cons_succ (a : Char) (l pat : List Char) (k : Nat) :
    occursAt (a :: l) pat (k + 1) ↔ occursAt l pat k := by
  unfold occursAt; rw [List.drop_succ_cons]

theorem occursAt_nil {pat : List Char} {k : Nat} (h : occursAt [] pat k) : pat = [] := by
  unfold occursAt at h
  rw [List.drop_nil] at h
  cases pat with
  | nil => rfl
  | cons x xs => simp [List.isPrefixOf] at h

theorem firstOcc_some_occurs {pat l : List Char} {k : Nat}
    (h : firstOcc pat l = some k) : occursAt l pat k := by
  induction l generalizing k with
  | nil =>
    simp only [firstOcc] at h
    by_cases hp : pat.isEmpty = true
    · simp only [hp, if_true] at h
      cases h
      unfold occursAt
      simp_all [List.isEmpty_iff]
    · simp [hp] at h
  | cons a t ih =>
    simp only [firstOcc] at h
    by_cases hp : pat.isPrefixOf (a :: t) = true
    · simp only [hp, if_true] at h
      cases h
      rw [occursAt_zero_iff]
      exact hp
    · simp only [hp, if_false, Bool.false_eq_true] at h
      rw [Option.map_eq_some'] at h
      obtain ⟨m, hm, hk⟩ := h
      subst hk
      rw [occursAt_cons_succ]
      exact ih hm

theorem firstOcc_some_min {pat l : List Char} {k : Nat}
    (h : firstOcc pat l = some k) : ∀ m, m < k → ¬ occursAt l pat m := by
  induction l generalizing k with
  | nil =>
    intro m hm hocc
    simp only [firstOcc] at h
    by_cases hp : pat.isEmpty = true
    · simp only [hp, if_true] at h; cases h; omega
    · simp [hp] at h
  | cons a t ih =>
    intro m hm hocc
    simp only [firstOcc] at h
    by_cases hp : pat.isPrefixOf (a :: t) = true
    · simp only [hp, if_true] at h; cases h; omega
    · simp only [hp, if_false, Bool.false_eq_true] at h
      rw [Option.map_eq_some'] at h
      obtain ⟨j, hj, hk⟩ := h
      subst hk
      match m with
      | 0 => exact hp ((occursAt_zero_iff pat (a :: t)).mp hocc)
      | m' + 1 =>
        rw [occursAt_cons_succ] at hocc
        exact ih hj m' (by omega) hocc

theorem firstOcc_none {pat l : List Char}
    (h : firstOcc pat l = none) : ∀ k, ¬ occursAt l pat k := by
  induction l with
  | nil =>
    intro k hocc
    have := occursAt_nil hocc
    subst this
    simp [firstOcc] at h
  | cons a t ih =>
    intro k hocc
    simp only [firstOcc] at h
    by_cases hp : pat.isPrefixOf (a :: t) = true
    · simp [hp] at h
    · simp only [hp, if_false, Bool.false_eq_true, Option.map_eq_none'] at h
      match k with
      | 0 => exact hp ((occursAt_zero_iff pat (a :: t)).mp hocc)
      | k' + 1 =>
        rw [occursAt_cons_succ] at hocc
        exact ih h k' hocc

theorem firstOcc_eq_some_of {pat l : List Char} {k : Nat}
    (h1 : occursAt l pat k) (h2 : ∀ m, m < k → ¬ occursAt l pat m) :
    firstOcc pat l = some k := by
  match hf : firstOcc pat l with
  | none => exact absurd h1 (firstOcc_none hf k)
  | some j =>
    have hj := firstOcc_some_occurs hf
    have hmin := firstOcc_some_min hf
    have : j = k := by
      rcases Nat.lt_trichotomy j k with h | h | h
      · exact absurd hj (h2 j h)
      · exact h
      · exact absurd h1 (hmin k h)
    exact congrArg some this

theorem pyIn_iff {pat s : List Char} : pyIn pat s = true ↔ ∃ i, occursAt s pat i := by
  unfold pyIn
  constructor
  · intro h
    match hf : firstOcc pat s with
    | some k => exact ⟨k, firstOcc_some_occurs hf⟩
    | none => rw [hf] at h; simp at h
  · rintro ⟨i, hi⟩
    match hf : firstOcc pat s with
    | some k => simp [hf]
    | none => exact absurd hi (firstOcc_none hf i)

theorem pyIn_eq_false_iff {pat s : List Char} :
    pyIn pat s = false ↔ ∀ i, ¬ occursAt s pat i := by
  have h := @pyIn_iff pat s
  cases hb : pyIn pat s with
  | true => simp only [hb] at h; simp_all
  | false => simp only [hb] at h; simp_all

theorem occursAt_drop {s pat : List Char} {a k : Nat} :
    occursAt (s.drop a) pat k ↔ occursAt s pat (a + k) := by
  unfold occursAt
  rw [List.drop_drop]

theorem pyFindFrom_eq_some_iff {s pat : List Char} {a m : Nat} :
    pyFindFrom s pat a = some m ↔
      a ≤ m ∧ occursAt s pat m ∧ ∀ k, a ≤ k → k < m → ¬ occursAt s pat k := by
  unfold pyFindFrom
  rw [Option.map_eq_some']
  constructor
  · rintro ⟨j, hj, rfl⟩
    have h1 := firstOcc_some_occurs hj
    have h2 := firstOcc_some_min hj
    rw [occursAt_drop] at h1
    refine ⟨Nat.le_add_left a j, by rwa [Nat.add_comm a j] at h1, ?_⟩
    intro k hk hkm hocc
    have hsh : occursAt (s.drop a) pat (k - a) := by
      rw [occursAt_drop, Nat.add_sub_cancel' hk]
      exact hocc
    exact h2 (k - a) (by omega) hsh
  · rintro ⟨h1, h2, h3⟩
    refine ⟨m - a, ?_, by omega⟩
    apply firstOcc_eq_some_of
    · rw [occursAt_drop, Nat.add_sub_cancel' h1]
      exact h2
    · intro j hj hocc
      rw [occursAt_drop] at hocc
      exact h3 (a + j) (Nat.le_add_right a j) (by omega) hocc

theorem pyFindFrom_eq_none_iff {s pat : List Char} {a : Nat} :
    pyFindFrom s pat a = none ↔ ∀ k, a ≤ k → ¬ occursAt s pat k := by
  unfold pyFindFrom
  simp only [Option.map_eq_none']
  constructor
  · intro h k hk hocc
    have hsh : occursAt (s.drop a) pat (k - a) := by
      rw [occursAt_drop, Nat.add_sub_cancel' hk]
      exact hocc
    exact firstOcc_none h _ hsh
  · intro h
    match hf : firstOcc pat (s.drop a) with
    | none => rfl
    | some j =>
      have hocc := firstOcc_some_occurs hf
      rw [occursAt_drop] at hocc
      exact absurd hocc (h (a + j) (Nat.le_add_right a j))

theorem pyAdjStart_ofNat (a : Nat) (len : Nat) : pyAdjStart (a : Int) len = a := by
  unfold pyAdjStart
  simp

theorem pyFind_ofNat_eq_iff {s pat : List Char} {a m : Nat} :
    pyFind s pat (a : Int) = (m : Int) ↔ pyFindFrom s pat a = some m := by
  cases hf : pyFindFrom s pat a with
  | some j =>
    simp only [pyFind, pyAdjStart_ofNat, hf, Nat.cast_inj, Option.some.injEq]
  | none =>
    simp only [pyFind, pyAdjStart_ofNat, hf]
    constructor
    · intro h; omega
    · intro h; cases h

theorem pyFind_ofNat_eq_negOne_iff {s pat : List Char} {a : Nat} :
    pyFind s pat (a : Int) = -1 ↔ pyFindFrom s pat a = none := by
  cases hf : pyFindFrom s pat a with
  | some j =>
    simp only [pyFind, pyAdjStart_ofNat, hf]
    constructor
    · intro h; omega
    · intro h; cases h
  | none => simp [pyFind, pyAdjStart_ofNat, hf]

theorem lastOcc_some_occurs {pat l : List Char} {k : Nat}
    (h : lastOcc pat l = some k) : occursAt l pat k := by
  induction l generalizing k with
  | nil =>
    simp only [lastOcc] at h
    by_cases hp : pat.isEmpty = true
    · simp only [hp, if_true] at h
      cases h
      unfold occursAt
      simp_all [List.isEmpty_iff]
    · simp [hp] at h
  | cons a t ih =>
    simp only [lastOcc] at h
    match hl : lastOcc pat t with
    | some j =>
      rw [hl] at h
      cases h
      rw [occursAt_cons_succ]
      exact ih hl
    | none =>
      rw [hl] at h
      by_cases hp : pat.isPrefixOf (a :: t) = true
      · simp only [hp, if_true] at h
        cases h
        rw [occursAt_zero_iff]
        exact hp
      · simp [hp] at h

theorem lastOcc_none {pat l : List Char}
    (h : lastOcc pat l = none) : ∀ k, ¬ occursAt l pat k := by
  induction l with
  | nil =>
    intro k hocc
    have := occursAt_nil hocc
    subst this
    simp [lastOcc] at h
  | cons a t ih =>
    intro k hocc
    simp only [lastOcc] at h
    match hl : lastOcc pat t with
    | some j => rw [hl] at h; cases h
    | none =>
      rw [hl] at h
      by_cases hp : pat.isPrefixOf (a :: t) = true
      · simp [hp] at h
      · match k with
        | 0 => exact hp ((occursAt_zero_iff pat (a :: t)).mp hocc)
        | k' + 1 =>
          rw [occursAt_cons_succ] at hocc
          exact ih hl k' hocc

theorem lastOcc_some_max {pat l : List Char} {k : Nat} (hpat : pat ≠ [])
    (h : lastOcc pat l = some k) : ∀ m, k < m → ¬ occursAt l pat m := by
  induction l generalizing k with
  | nil =>
    intro m hm hocc
    exact hpat (occursAt_nil hocc)
  | cons a t ih =>
    intro m hm hocc
    simp only [lastOcc] at h
    match hl : lastOcc pat t with
    | some j =>
      rw [hl] at h
      cases h
      match m with
      | 0 => omega
      | m' + 1 =>
        rw [occursAt_cons_succ] at hocc
        exact ih hl m' (by omega) hocc
    | none =>
      rw [hl] at h
      by_cases hp : pat.isPrefixOf (a :: t) = true
      · simp only [hp, if_true] at h
        cases h
        match m with
        | 0 => omega
        | m' + 1 =>
          rw [occursAt_cons_succ] at hocc
          exact lastOcc_none hl m' hocc
      · simp [hp] at h

theorem lastOcc_eq_some_of {pat l : List Char} {m : Nat} (hpat : pat ≠ [])
    (h1 : occursAt l pat m) (h2 : ∀ k, m < k → ¬ occursAt l pat k) :
    lastOcc pat l = some m := by
  match hf : lastOcc pat l with
  | none => exact absurd h1 (lastOcc_none hf m)
  | some j =>
    have hj := lastOcc_some_occurs hf
    have hmax := lastOcc_some_max hpat hf
    have : j = m := by
      rcases Nat.lt_trichotomy j m with h | h | h
      · exact absurd h1 (hmax m h)
      · exact h
      · exact absurd hj (h2 j h)
    exact congrArg some this

theorem occursAt_bound {s pat : List Char} {i : Nat} (hpat : pat ≠ [])
    (h : occursAt s pat i) : i + pat.length ≤ s.length := by
  unfold occursAt at h
  rw [List.isPrefixOf_iff_prefix] at h
  have hlen := h.length_le
  rw [List.length_drop] at hlen
  by_cases hi : i ≤ s.length
  · have hp : 0 < pat.length := List.length_pos.mpr hpat
    omega
  · exfalso
    have hd : s.drop i = [] := List.drop_eq_nil_of_le (by omega)
    rw [hd] at h
    exact hpat (List.prefix_nil.mp h)

theorem occursAt_take_of {s pat : List Char} {m hi : Nat}
    (h : occursAt s pat m) (hb : m + pat.length ≤ hi) :
    occursAt (s.take hi) pat m := by
  unfold occursAt at *
  rw [List.isPrefixOf_iff_prefix] at *
  rw [List.drop_take]
  rw [List.prefix_iff_eq_take] at h ⊢
  rw [List.take_take]
  have hmin : pat.length ⊓ (hi - m) = pat.length := by omega
  rw [hmin]
  exact h

theorem occursAt_of_take {s pat : List Char} {m hi : Nat}
    (h : occursAt (s.take hi) pat m) :
    occursAt s pat m ∧ (pat ≠ [] → m + pat.length ≤ hi) := by
  unfold occursAt at *
  rw [List.isPrefixOf_iff_prefix] at *
  rw [List.drop_take] at h
  constructor
  · exact h.trans (List.take_prefix _ _)
  · intro hpat
    have hlen := h.length_le
    rw [List.length_take] at hlen
    have hp : 0 < pat.length := List.length_pos.mpr hpat
    omega

theorem pySliceNat_of_occursAt {s pat : List Char} {i : Nat}
    (h : occursAt s pat i) {a b : Nat} (hab : a ≤ b) (hb : b ≤ pat.length) :
    pySliceNat s (i + a) (i + b) = pySliceNat pat a b := by
  unfold occursAt at h
  rw [List.isPrefixOf_iff_prefix] at h
  obtain ⟨t, ht⟩ := h
  unfold pySliceNat
  rw [List.drop_take]
  have h1 : i + b - (i + a) = b - a := by omega
  rw [h1]
  have h2 : s.drop (i + a) = pat.drop a ++ t := by
    have : s.drop (i + a) = (s.drop i).drop a := by rw [List.drop_drop]
    rw [this, ← ht, List.drop_append_of_le_length (by omega)]
  rw [h2]
  rw [List.take_append_of_le_length (by rw [List.length_drop]; omega)]
  rw [List.drop_take]

theorem pyAdjEnd_ofNat_of_le {a len : Nat} (h : a ≤ len) : pyAdjEnd (a : Int) len = a := by
  unfold pyAdjEnd
  rw [if_neg (by omega : ¬((a : Int) < 0))]
  simp only [Int.toNat_ofNat]
  omega

theorem pySlice_ofNat {s : List Char} {a b : Nat} (ha : a ≤ s.length) (hb : b ≤ s.length) :
    pySlice s (a : Int) (b : Int) = pySliceNat s a b := by
  unfold pySlice
  rw [pyAdjEnd_ofNat_of_le ha, pyAdjEnd_ofNat_of_le hb]

theorem pyRfind_eq_of {s pat : List Char} {lo hi m : Nat} (hpat : pat ≠ [])
    (hhi : hi ≤ s.length) (h1 : occursAt s pat m) (hm : m + pat.length ≤ hi)
    (hlo : lo ≤ m)
    (h2 : ∀ k, m < k → k + pat.length ≤ hi → ¬ occursAt s pat k) :
    pyRfind s pat (lo : Int) (hi : Int) = (m : Int) := by
  have hlast : lastOcc pat (s.take (pyAdjEnd (hi : Int) s.length)) = some m := by
    rw [pyAdjEnd_ofNat_of_le hhi]
    apply lastOcc_eq_some_of hpat
    · exact occursAt_take_of h1 hm
    · intro k hk hocc
      obtain ⟨ho, hob⟩ := occursAt_of_take hocc
      exact h2 k hk (hob hpat) ho
  unfold pyRfind
  rw [hlast]
  simp only [pyAdjStart_ofNat]
  rw [if_pos hlo]

theorem prefix_of_suffix_infix {l1 l2 l3 : List Char} (h1 : l1 <+: l2) (h2 : l2 <:+ l3) :
    l1 <:+: l3 := by
  obtain ⟨t, ht⟩ := h1
  obtain ⟨u, hu⟩ := h2
  exact ⟨u, t, by rw [← hu, ← ht, List.append_assoc]⟩

theorem pyStripLeft_suffix (s : List Char) : pyStripLeft s <:+ s := List.dropWhile_suffix _

theorem pyStripRight_pre (s : List Char) : pyStripRight s <+: s := by
  unfold pyStripRight
  rw [← List.reverse_suffix]
  simpa using List.dropWhile_suffix (l := s.reverse) isPySpace

theorem pyStrip_inf (s : List Char) : pyStrip s <:+: s :=
  prefix_of_suffix_infix (pyStripRight_pre _) (pyStripLeft_suffix s)

theorem mem_dropWhile_of {p : Char → Bool} {l : List Char} {c : Char}
    (h : c ∈ l) (hc : p c = false) : c ∈ l.dropWhile p := by
  induction l with
  | nil => cases h
  | cons a t ih =>
    rw [List.dropWhile_cons]
    by_cases hp : p a = true
    · rw [if_pos hp]
      rcases List.mem_cons.mp h with rfl | h'
      · rw [hp] at hc; cases hc
      · exact ih h'
    · rw [if_neg hp]
      exact h

theorem mem_pyStrip_of {s : List Char} {c : Char} (h : c ∈ s) (hc : isPySpace c = false) :
    c ∈ pyStrip s := by
  unfold pyStrip pyStripLeft pyStripRight
  rw [List.mem_reverse]
  apply mem_dropWhile_of _ hc
  rw [List.mem_reverse]
  exact mem_dropWhile_of h hc

theorem pyStrip_ne_nil_of {s : List Char} {c : Char} (h : c ∈ s) (hc : isPySpace c = false) :
    pyStrip s ≠ [] := by
  intro hnil
  have hm := mem_pyStrip_of h hc
  rw [hnil] at hm
  cases hm

theorem dropWhile_idem (p : Char → Bool) (l : List Char) :
    (l.dropWhile p).dropWhile p = l.dropWhile p := by
  induction l with
  | nil => rfl
  | cons a t ih =>
    rw [List.dropWhile_cons]
    by_cases hp : p a = true
    · rw [if_pos hp, ih]
    · rw [if_neg hp, List.dropWhile_cons, if_neg hp]

theorem pyStripRight_idem (s : List Char) : pyStripRight (pyStripRight s) = pyStripRight s := by
  unfold pyStripRight
  rw [List.reverse_reverse, dropWhile_idem]

theorem pyStripLeft_eq_self_of_prefix {x y : List Char} (hp : x <+: y)
    (h : pyStripLeft y = y) : pyStripLeft x = x := by
  unfold pyStripLeft at *
  cases x with
  | nil => rfl
  | cons a t =>
    obtain ⟨u, hu⟩ := hp
    rw [← hu] at h
    rw [List.cons_append, List.dropWhile_cons] at h
    rw [List.dropWhile_cons]
    by_cases hpa : isPySpace a = true
    · exfalso
      rw [if_pos hpa] at h
      have hsl : (List.dropWhile isPySpace (t ++ u)) <:+ t ++ u := List.dropWhile_suffix _
      have hlen := hsl.length_le
      have := congrArg List.length h
      simp only [List.length_cons, List.length_append] at this hlen
      omega
    · rw [if_neg hpa]

theorem pyStrip_idem (s : List Char) : pyStrip (pyStrip s) = pyStrip s := by
  unfold pyStrip
  have h1 : pyStripLeft (pyStripLeft s) = pyStripLeft s := dropWhile_idem _ _
  have h2 : pyStripLeft (pyStripRight (pyStripLeft s)) = pyStripRight (pyStripLeft s) :=
    pyStripLeft_eq_self_of_prefix (pyStripRight_pre _) h1
  rw [h2, pyStripRight_idem]

theorem find?_map_dictInsert_self {k : List Char} {v : Json} (d : PyDict)
    (h : d.any (fun p => p.1 == k) = true) :
    List.find? (fun p => p.1 == k) (d.map (fun p => if p.1 == k then (k, v) else p)) =
      some (k, v) := by
  induction d with
  | nil => simp at h
  | cons p t ih =>
    simp only [List.map_cons]
    by_cases hp : (p.1 == k) = true
    · rw [if_pos hp]
      exact @List.find?_cons_of_pos _ (fun q => q.1 == k) (k, v) _ (by simp)
    · rw [if_neg hp]
      rw [@List.find?_cons_of_neg _ (fun q => q.1 == k) p _ (by simp [hp])]
      apply ih
      have hp' : (p.1 == k) = false := by simpa using hp
      rw [List.any_cons, hp', Bool.false_or] at h
      exact h

theorem find?_map_dictInsert_ne {k k' : List Char} {v : Json} (d : PyDict)
    (h : k' ≠ k) :
    List.find? (fun p => p.1 == k') (d.map (fun p => if p.1 == k then (k, v) else p)) =
      List.find? (fun p => p.1 == k') d := by
  induction d with
  | nil => rfl
  | cons p t ih =>
    simp only [List.map_cons]
    by_cases hp : (p.1 == k) = true
    · rw [if_pos hp]
      have hpk : p.1 = k := beq_iff_eq.mp hp
      have h1 : ((k, v).1 == k') = false := beq_eq_false_iff_ne.mpr (fun hh => h hh.symm)
      have h2 : (p.1 == k') = false := beq_eq_false_iff_ne.mpr (by rw [hpk]; exact fun hh => h hh.symm)
      rw [@List.find?_cons_of_neg _ (fun q => q.1 == k') (k, v) _ (by simp [h1]),
        @List.find?_cons_of_neg _ (fun q => q.1 == k') p _ (by simp [h2])]
      exact ih
    · rw [if_neg hp]
      by_cases hq : (p.1 == k') = true
      · rw [@List.find?_cons_of_pos _ (fun q => q.1 == k') p _ hq,
          @List.find?_cons_of_pos _ (fun q => q.1 == k') p _ hq]
      · rw [@List.find?_cons_of_neg _ (fun q => q.1 == k') p _ hq,
          @List.find?_cons_of_neg _ (fun q => q.1 == k') p _ hq]
        exact ih

theorem pyDictGet_dictInsert_self (d : PyDict) (k : List Char) (v : Json) :
    pyDictGet (dictInsert d k v) k = some v := by
  unfold dictInsert pyDictGet
  by_cases h : d.any (fun p => p.1 == k) = true
  · rw [if_pos h, find?_map_dictInsert_self d h]
    rfl
  · rw [if_neg h, List.find?_append]
    have hnone : List.find? (fun p => p.1 == k) d = none := by
      rw [List.find?_eq_none]
      intro x hx hpx
      exact h (List.any_eq_true.mpr ⟨x, hx, hpx⟩)
    rw [hnone]
    simp [List.find?_cons_of_pos]

theorem pyDictGet_dictInsert_ne (d : PyDict) {k k' : List Char} (v : Json) (h : k' ≠ k) :
    pyDictGet (dictInsert d k v) k' = pyDictGet d k' := by
  unfold dictInsert pyDictGet
  by_cases ha : d.any (fun p => p.1 == k) = true
  · rw [if_pos ha, find?_map_dictInsert_ne d h]
  · rw [if_neg ha, List.find?_append]
    have h1 : ((k, v).1 == k') = false := beq_eq_false_iff_ne.mpr (fun hh => h hh.symm)
    have : List.find? (fun p => p.1 == k') [(k, v)] = none := by
      simp [List.find?_cons_of_neg, h1]
    rw [this, Option.or_none]

theorem pyReplaceAux_of_noOcc {fuel : Nat} {l pat rep : List Char}
    (h : ∀ i, ¬ occursAt l pat i) : pyReplaceAux fuel l pat rep = l := by
  induction fuel generalizing l with
  | zero => cases l <;> rfl
  | succ f ih =>
    cases l with
    | nil => rfl
    | cons a t =>
      simp only [pyReplaceAux]
      have hp : pat.isPrefixOf (a :: t) = false := by
        cases hb : pat.isPrefixOf (a :: t) with
        | true => exact absurd ((occursAt_zero_iff _ _).mpr hb) (h 0)
        | false => rfl
      have htail : pyReplaceAux f t pat rep = t :=
        ih (fun i hocc => h (i + 1) ((occursAt_cons_succ _ _ _ _).mpr hocc))
      rw [if_neg (by simp [hp]), htail]

theorem pyReplace_of_noOcc {s pat rep : List Char} (h : pyIn pat s = false) :
    pyReplace s pat rep = s :=
  pyReplaceAux_of_noOcc (pyIn_eq_false_iff.mp h)

theorem mem_pyReplaceAux_of {fuel : Nat} {l pat rep : List Char} {c : Char}
    (h : c ∈ l) (hc : c ∉ pat) : c ∈ pyReplaceAux fuel l pat rep := by
  induction fuel generalizing l with
  | zero => cases l with | nil => exact h | cons a t => exact h
  | succ f ih =>
    cases l with
    | nil => cases h
    | cons a t =>
      simp only [pyReplaceAux]
      by_cases hp : (pat.isPrefixOf (a :: t) && !pat.isEmpty) = true
      · rw [if_pos hp]
        apply List.mem_append_right
        rw [Bool.and_eq_true] at hp
        obtain ⟨hpre, hne⟩ := hp
        obtain ⟨u, hu⟩ := List.isPrefixOf_iff_prefix.mp hpre
        have hpatne : pat ≠ [] := by
          intro hh
          rw [hh] at hne
          simp at hne
        have ht : t.drop (pat.length - 1) = u := by
          cases pat with
          | nil => exact absurd rfl hpatne
          | cons p0 pt =>
            rw [List.cons_append] at hu
            injection hu with h1 h2
            rw [← h2]
            simp [List.drop_left]
        rw [ht]
        apply ih
        have hmem : c ∈ pat ++ u := by rw [hu]; exact h
        rcases List.mem_append.mp hmem with hcp | hcu
        · exact absurd hcp hc
        · exact hcu
      · rw [if_neg hp]
        rcases List.mem_cons.mp h with rfl | h'
        · exact List.mem_cons_self _ _
        · exact List.mem_cons_of_mem _ (ih h')

theorem mem_unescFixed_of {s : List Char} {c : Char} (h : c ∈ s)
    (h1 : c ≠ '\\') (h2 : c ≠ 'n') (h3 : c ≠ '"') : c ∈ unescFixed s := by
  unfold unescFixed pyReplace
  apply mem_pyReplaceAux_of
  · apply mem_pyReplaceAux_of
    · exact mem_pyReplaceAux_of h (by simp [h1, h2])
    · simp [h1, h3]
  · simp [h1]

theorem occursAt_map {s pat : List Char} {i : Nat} (f : Char → Char)
    (h : occursAt s pat i) : occursAt (s.map f) (pat.map f) i := by
  unfold occursAt at *
  rw [List.isPrefixOf_iff_prefix] at *
  rw [← List.map_drop]
  exact h.map f

theorem pyIn_lower_of {pat s : List Char} (h : pyIn pat s = true)
    (hfix : pat.map Char.toLower = pat) : pyIn pat (pyLower s) = true := by
  rw [pyIn_iff] at *
  obtain ⟨i, hi⟩ := h
  refine ⟨i, ?_⟩
  unfold pyLower
  have hm := occursAt_map Char.toLower hi
  rwa [hfix] at hm

theorem pyIn_trans {a b c : List Char} (h1 : pyIn a b = true) (h2 : pyIn b c = true) :
    pyIn a c = true := by
  rw [pyIn_iff] at *
  obtain ⟨j, hj⟩ := h1
  obtain ⟨i, hi⟩ := h2
  by_cases ha : a = []
  · subst ha
    refine ⟨0, ?_⟩
    unfold occursAt
    simp [List.isPrefixOf]
  · refine ⟨i + j, ?_⟩
    have hjb : j + a.length ≤ b.length := occursAt_bound ha hj
    unfold occursAt at *
    rw [List.isPrefixOf_iff_prefix] at *
    obtain ⟨t, ht⟩ := hi
    have hj' : a <+: (c.drop i).drop j := by
      rw [← ht, List.drop_append_of_le_length (by omega)]
      exact hj.trans (List.prefix_append _ _)
    rwa [List.drop_drop] at hj'

theorem charAt_of_occursAt {s pat : List Char} {i : Nat} (h : occursAt s pat i)
    {k : Nat} (hk : k < pat.length) : charAt s (i + k) = (pat.drop k).head? := by
  unfold occursAt at h
  rw [List.isPrefixOf_iff_prefix] at h
  obtain ⟨t, ht⟩ := h
  unfold charAt
  have hs : s.drop (i + k) = pat.drop k ++ t := by
    have h2 : s.drop (i + k) = (s.drop i).drop k := by rw [List.drop_drop]
    rw [h2, ← ht, List.drop_append_of_le_length (by omega)]
  rw [hs]
  cases hd : pat.drop k with
  | nil =>
    exfalso
    have := congrArg List.length hd
    rw [List.length_drop] at this
    simp at this
    omega
  | cons x xs => simp

theorem occursAt_singleton_iff {s : List Char} {c : Char} {i : Nat} :
    occursAt s [c] i ↔ charAt s i = some c := by
  unfold occursAt charAt
  cases hd : s.drop i with
  | nil => simp [List.isPrefixOf]
  | cons x xs =>
    simp only [List.isPrefixOf, List.head?_cons, Option.some.injEq]
    constructor
    · intro hb
      rw [Bool.and_eq_true] at hb
      exact (beq_iff_eq.mp hb.1).symm
    · intro he
      subst he
      simp [List.isPrefixOf]

theorem pyFindFrom_char_window {s : List Char} {c : Char} {a m : Nat}
    (ham : a ≤ m) (hm : charAt s m = some c)
    (hwin : ∀ k, a ≤ k → k < m → charAt s k ≠ some c) :
    pyFindFrom s [c] a = some m := by
  rw [pyFindFrom_eq_some_iff]
  exact ⟨ham, occursAt_singleton_iff.mpr hm,
    fun k hk hkm hocc => hwin k hk hkm (occursAt_singleton_iff.mp hocc)⟩

theorem exceptOk_bind {α β : Type} (x : α) (f : α → Except PyErr β) :
    (Except.ok x >>= f) = f x := rfl

theorem exceptErr_bind {α β : Type} (e : PyErr) (f : α → Except PyErr β) :
    (Except.error e >>= f : Except PyErr β) = Except.error e := rfl

theorem fallbackScan_get_has (js : List Char) :
    pyDictGet (fallbackScan js) hasIssuesKey = some (.bool (fallbackHas js)) := by
  simp only [fallbackScan]
  cases hI : fallbackIssues js with
  | none =>
    cases hF : fallbackFixed js with
    | none => exact pyDictGet_dictInsert_self _ _ _
    | some f =>
      rw [pyDictGet_dictInsert_ne _ _ (by decide)]
      exact pyDictGet_dictInsert_self _ _ _
  | some is =>
    cases hF : fallbackFixed js with
    | none =>
      rw [pyDictGet_dictInsert_ne _ _ (by decide)]
      exact pyDictGet_dictInsert_self _ _ _
    | some f =>
      rw [pyDictGet_dictInsert_ne _ _ (by decide), pyDictGet_dictInsert_ne _ _ (by decide)]
      exact pyDictGet_dictInsert_self _ _ _

theorem fallbackScan_get_issues (js : List Char) :
    pyDictGet (fallbackScan js) issuesKey =
      (fallbackIssues js).map (fun is => .arr (is.map .str)) := by
  simp only [fallbackScan]
  cases hI : fallbackIssues js with
  | none =>
    cases hF : fallbackFixed js with
    | none =>
      rw [pyDictGet_dictInsert_ne _ _ (by decide)]
      rfl
    | some f =>
      rw [pyDictGet_dictInsert_ne _ _ (by decide), pyDictGet_dictInsert_ne _ _ (by decide)]
      rfl
  | some is =>
    cases hF : fallbackFixed js with
    | none => exact pyDictGet_dictInsert_self _ _ _
    | some f =>
      rw [pyDictGet_dictInsert_ne _ _ (by decide)]
      exact pyDictGet_dictInsert_self _ _ _

theorem fallbackScan_get_fixed (js : List Char) :
    pyDictGet (fallbackScan js) fixedKey = (fallbackFixed js).map .str := by
  simp only [fallbackScan]
  cases hI : fallbackIssues js with
  | none =>
    cases hF : fallbackFixed js with
    | none =>
      rw [pyDictGet_dictInsert_ne _ _ (by decide)]
      rfl
    | some f => exact pyDictGet_dictInsert_self _ _ _
  | some is =>
    cases hF : fallbackFixed js with
    | none =>
      rw [pyDictGet_dictInsert_ne _ _ (by decide), pyDictGet_dictInsert_ne _ _ (by decide)]
      rfl
    | some f => exact pyDictGet_dictInsert_self _ _ _

theorem applySanitize_fallback (js : List Char) :
    applySanitize (fallbackScan js) = .ok (fallbackResult js) := by
  unfold applySanitize fallbackResult
  cases hF : fallbackFixed js with
  | none =>
    rw [fallbackScan_get_fixed js, hF, Option.map_none']
  | some f =>
    rw [fallbackScan_get_fixed js, hF, Option.map_some']

theorem fallbackResult_get_has (js : List Char) :
    pyDictGet (fallbackResult js) hasIssuesKey = some (.bool (fallbackHas js)) := by
  unfold fallbackResult
  cases hF : fallbackFixed js with
  | none => exact fallbackScan_get_has js
  | some f =>
    rw [pyDictGet_dictInsert_ne _ _ (by decide)]
    exact fallbackScan_get_has js

theorem fallbackResult_get_issues (js : List Char) :
    pyDictGet (fallbackResult js) issuesKey =
      (fallbackIssues js).map (fun is => .arr (is.map .str)) := by
  unfold fallbackResult
  cases hF : fallbackFixed js with
  | none => exact fallbackScan_get_issues js
  | some f =>
    rw [pyDictGet_dictInsert_ne _ _ (by decide)]
    exact fallbackScan_get_issues js

theorem fallbackResult_get_fixed (js : List Char) :
    pyDictGet (fallbackResult js) fixedKey = (fallbackFixed js).map (fun f => .str (sanitizeFixed f)) := by
  unfold fallbackResult
  cases hF : fallbackFixed js with
  | none =>
    rw [fallbackScan_get_fixed js, hF, Option.map_none']
    rfl
  | some f =>
    rw [pyDictGet_dictInsert_self]
    rfl

theorem fieldsWellTyped_of_gets {d : PyDict}
    (hf : pyDictGet d fixedKey = none ∨ ∃ t, pyDictGet d fixedKey = some (.str t))
    (hi : pyDictGet d issuesKey = none ∨ ∃ l, pyDictGet d issuesKey = some (.arr l)) :
    fieldsWellTyped d = true := by
  unfold fieldsWellTyped
  rw [Bool.and_eq_true]
  constructor
  · rcases hf with h | ⟨t, h⟩ <;> rw [h]
  · rcases hi with h | ⟨l, h⟩ <;> rw [h]

theorem fallbackResult_wellTyped (js : List Char) :
    fieldsWellTyped (fallbackResult js) = true := by
  apply fieldsWellTyped_of_gets
  · rw [fallbackResult_get_fixed]
    cases fallbackFixed js with
    | none => exact Or.inl rfl
    | some f => exact Or.inr ⟨_, rfl⟩
  · rw [fallbackResult_get_issues]
    cases fallbackIssues js with
    | none => exact Or.inl rfl
    | some is => exact Or.inr ⟨_, rfl⟩

theorem debugEval_ok_of_wellTyped {d : PyDict} (h : fieldsWellTyped d = true) :
    debugEval d = .ok d := by
  unfold fieldsWellTyped at h
  rw [Bool.and_eq_true] at h
  obtain ⟨hf, hi⟩ := h
  unfold debugEval
  cases hgf : pyDictGet d fixedKey with
  | none =>
    cases hgi : pyDictGet d issuesKey with
    | none => rfl
    | some vi =>
      rw [hgi] at hi
      match vi, hi with
      | .arr l, _ =>
        simp only [hgi, hgf]
        rfl
  | some vf =>
    rw [hgf] at hf
    match vf, hf with
    | .str t, _ =>
      cases hgi : pyDictGet d issuesKey with
      | none =>
        simp only [hgi, hgf]
        cases ht : t.isEmpty <;>
          simp [pyTruthy, pyLenJson, pySliceJsonTake, ht] <;> rfl
      | some vi =>
        rw [hgi] at hi
        match vi, hi with
        | .arr l, _ =>
          simp only [hgi, hgf]
          cases ht : t.isEmpty <;>
            simp [pyTruthy, pyLenJson, pySliceJsonTake, ht] <;> rfl

theorem parseLlmResponse_decode_error {s : List Char}
    (h : jsonLoads (extractPayload s) = .error ()) :
    parseLlmResponse s = .ok (fallbackResult (extractPayload s)) := by
  unfold parseLlmResponse
  simp only [h]
  rw [pure_bind]
  rw [applySanitize_fallback]
  rw [exceptOk_bind]
  exact debugEval_ok_of_wellTyped (fallbackResult_wellTyped _)

theorem pyFindFrom_zero (s pat : List Char) : pyFindFrom s pat 0 = firstOcc pat s := by
  unfold pyFindFrom
  rw [List.drop_zero]
  cases firstOcc pat s <;> simp

theorem pyFind_zero_eq_iff {s pat : List Char} {m : Nat} :
    pyFind s pat 0 = (m : Int) ↔ firstOcc pat s = some m := by
  have h := @pyFind_ofNat_eq_iff s pat 0 m
  rw [pyFindFrom_zero] at h
  simpa using h

theorem pyFind_zero_eq_negOne_iff {s pat : List Char} :
    pyFind s pat 0 = -1 ↔ firstOcc pat s = none := by
  have h := @pyFind_ofNat_eq_negOne_iff s pat 0
  rw [pyFindFrom_zero] at h
  simpa using h

theorem pyIn_isSome (pat s : List Char) : pyIn pat s = (firstOcc pat s).isSome := rfl

theorem pyAdjEnd_negOne (len : Nat) : pyAdjEnd (-1) len = len - 1 := by
  unfold pyAdjEnd
  rw [if_pos (by omega : (-1 : Int) < 0)]
  omega

theorem pyRfind_ofNat_occurs {s pat : List Char} {lo hi : Int} {m : Nat}
    (h : pyRfind s pat lo hi = (m : Int)) :
    occursAt (s.take (pyAdjEnd hi s.length)) pat m := by
  unfold pyRfind at h
  cases hl : lastOcc pat (s.take (pyAdjEnd hi s.length)) with
  | none =>
    rw [hl] at h
    have h' : (-1 : Int) = (m : Int) := h
    exact absurd h' (by omega)
  | some k =>
    rw [hl] at h
    by_cases hlo : pyAdjStart lo s.length ≤ k
    · have h' : (if pyAdjStart lo s.length ≤ k then (k : Int) else -1) = (m : Int) := h
      rw [if_pos hlo] at h'
      have hkm : k = m := by omega
      rw [← hkm]
      exact lastOcc_some_occurs hl
    · have h' : (if pyAdjStart lo s.length ≤ k then (k : Int) else -1) = (m : Int) := h
      rw [if_neg hlo] at h'
      exact absurd h' (by omega)

theorem pyFind_ge_start {s pat : List Char} {a : Nat}
    (h : pyFind s pat (a : Int) ≠ -1) : (a : Int) ≤ pyFind s pat (a : Int) := by
  unfold pyFind at *
  rw [pyAdjStart_ofNat] at *
  cases hf : pyFindFrom s pat a with
  | none =>
    rw [hf] at h
    exact absurd rfl h
  | some m =>
    have hge := (pyFindFrom_eq_some_iff.mp hf).1
    show (a : Int) ≤ (m : Int)
    omega

theorem infix_iff_exists_occursAt {pat y : List Char} :
    pat <:+: y ↔ ∃ m, occursAt y pat m := by
  constructor
  · rintro ⟨u, v, huv⟩
    refine ⟨u.length, ?_⟩
    unfold occursAt
    rw [List.isPrefixOf_iff_prefix, ← huv, List.append_assoc, List.drop_left]
    exact List.prefix_append _ _
  · rintro ⟨m, hm⟩
    unfold occursAt at hm
    rw [List.isPrefixOf_iff_prefix] at hm
    obtain ⟨t, ht⟩ := hm
    refine ⟨y.take m, t, ?_⟩
    rw [List.append_assoc, ht, List.take_append_drop]

theorem pyIn_append_left {p q s : List Char} (h : pyIn (p ++ q) s = true) :
    pyIn p s = true := by
  rw [pyIn_iff] at h ⊢
  obtain ⟨i, hi⟩ := h
  refine ⟨i, ?_⟩
  unfold occursAt at hi ⊢
  rw [List.isPrefixOf_iff_prefix] at hi ⊢
  exact (List.prefix_append p q).trans hi

theorem no_tb_in_extract {x : List Char} {start e : Nat}
    (hfind : pyFindFrom x tripleBacktick start = some e) :
    pyIn tripleBacktick (pyStrip (pySliceNat x start e)) = false := by
  rw [pyIn_eq_false_iff]
  intro k hocc
  have hinf : tripleBacktick <:+: pyStrip (pySliceNat x start e) :=
    infix_iff_exists_occursAt.mpr ⟨k, hocc⟩
  have hinf2 : tripleBacktick <:+: pySliceNat x start e :=
    hinf.trans (pyStrip_inf _)
  obtain ⟨m, hm⟩ := infix_iff_exists_occursAt.mp hinf2
  unfold pySliceNat at hm
  rw [occursAt_drop] at hm
  obtain ⟨ho, hob⟩ := occursAt_of_take hm
  have hb : start + m + 3 ≤ e := hob (by decide)
  obtain ⟨_, _, hmin⟩ := pyFindFrom_eq_some_iff.mp hfind
  exact hmin (start + m) (Nat.le_add_right _ _) (by omega) ho

theorem sanitizeFixed_eval_python {x : List Char} {i0 e : Nat}
    (hf : firstOcc fencePython x = some i0)
    (he : pyFindFrom x tripleBacktick (i0 + 9) = some e) :
    sanitizeFixed x = pyStrip (pySliceNat x (i0 + 9) e) := by
  have h1 : pyIn fencePython x = true := by rw [pyIn_isSome, hf]; rfl
  have hs : sfPyStart x = ((i0 + 9 : Nat) : Int) := by
    unfold sfPyStart
    rw [pyFind_zero_eq_iff.mpr hf]
    push_cast
    ring
  have he' : sfPyEnd x = ((e : Nat) : Int) := by
    unfold sfPyEnd
    rw [hs]
    exact pyFind_ofNat_eq_iff.mpr he
  unfold sanitizeFixed
  rw [if_pos h1, if_pos (by rw [he']; omega), hs, he']
  obtain ⟨hge, hocc, _⟩ := pyFindFrom_eq_some_iff.mp he
  have hb : e + 3 ≤ x.length := by
    have h3 := occursAt_bound (by decide) hocc
    have : tripleBacktick.length = 3 := rfl
    omega
  have hocc0 : occursAt x fencePython i0 := firstOcc_some_occurs hf
  have hi9 : i0 + 9 ≤ x.length := by
    have h9 := occursAt_bound (by decide) hocc0
    have : fencePython.length = 9 := rfl
    omega
  rw [pySlice_ofNat (by omega) (by omega)]

theorem sanitizeFixed_python_unterminated {x : List Char} {i0 : Nat}
    (hf : firstOcc fencePython x = some i0)
    (he : pyFindFrom x tripleBacktick (i0 + 9) = none) :
    sanitizeFixed x = x := by
  have h1 : pyIn fencePython x = true := by rw [pyIn_isSome, hf]; rfl
  have hs : sfPyStart x = ((i0 + 9 : Nat) : Int) := by
    unfold sfPyStart
    rw [pyFind_zero_eq_iff.mpr hf]
    push_cast
    ring
  have he' : sfPyEnd x = -1 := by
    unfold sfPyEnd
    rw [hs]
    exact pyFind_ofNat_eq_negOne_iff.mpr he
  unfold sanitizeFixed
  rw [if_pos h1, if_neg (by rw [he']; simp)]

theorem sanitizeFixed_eval_bare {x : List Char} {i0 e : Nat}
    (h1 : pyIn fencePython x = false)
    (hf : firstOcc tripleBacktick x = some i0)
    (he : pyFindFrom x tripleBacktick (i0 + 3) = some e) :
    sanitizeFixed x = pyStrip (pySliceNat x (i0 + 3) e) := by
  have h2 : pyIn tripleBacktick x = true := by rw [pyIn_isSome, hf]; rfl
  have hs : sfBareStart x = ((i0 + 3 : Nat) : Int) := by
    unfold sfBareStart
    rw [pyFind_zero_eq_iff.mpr hf]
    push_cast
    ring
  have he' : sfBareEnd x = ((e : Nat) : Int) := by
    unfold sfBareEnd
    rw [hs]
    exact pyFind_ofNat_eq_iff.mpr he
  unfold sanitizeFixed
  rw [if_neg (by simp [h1]), if_pos h2, if_pos (by rw [he']; omega), hs, he']
  obtain ⟨hge, hocc, _⟩ := pyFindFrom_eq_some_iff.mp he
  have hb : e + 3 ≤ x.length := by
    have h3 := occursAt_bound (by decide) hocc
    have : tripleBacktick.length = 3 := rfl
    omega
  have hocc0 : occursAt x tripleBacktick i0 := firstOcc_some_occurs hf
  have hi3 : i0 + 3 ≤ x.length := by
    have h9 := occursAt_bound (by decide) hocc0
    have : tripleBacktick.length = 3 := rfl
    omega
  rw [pySlice_ofNat (by omega) (by omega)]

theorem sanitizeFixed_bare_unterminated {x : List Char} {i0 : Nat}
    (h1 : pyIn fencePython x = false)
    (hf : firstOcc tripleBacktick x = some i0)
    (he : pyFindFrom x tripleBacktick (i0 + 3) = none) :
    sanitizeFixed x = x := by
  have h2 : pyIn tripleBacktick x = true := by rw [pyIn_isSome, hf]; rfl
  have hs : sfBareStart x = ((i0 + 3 : Nat) : Int) := by
    unfold sfBareStart
    rw [pyFind_zero_eq_iff.mpr hf]
    push_cast
    ring
  have he' : sfBareEnd x = -1 := by
    unfold sfBareEnd
    rw [hs]
    exact pyFind_ofNat_eq_negOne_iff.mpr he
  unfold sanitizeFixed
  rw [if_neg (by simp [h1]), if_pos h2, if_neg (by rw [he']; simp)]

theorem sanitizeFixed_no_fence {r : List Char}
    (h1 : pyIn fencePython r = false) (h2 : pyIn tripleBacktick r = false) :
    sanitizeFixed r = r := by
  unfold sanitizeFixed
  rw [if_neg (by simp [h1]), if_neg (by simp [h2])]

theorem no_fencePython_of_no_tb {r : List Char} (h : pyIn tripleBacktick r = false) :
    pyIn fencePython r = false := by
  cases hb : pyIn fencePython r with
  | false => rfl
  | true =>
    have hb' : pyIn (tripleBacktick ++ ("python".data)) r = true := hb
    have := pyIn_append_left hb'
    rw [this] at h
    cases h

/-- C7: the fixed-content sanitizer (lines 133-144, the step that strips a
residual code fence nested inside the fixed_code value) is idempotent: for
every string x, sanitize(sanitize(x)) equals sanitize(x); in particular
sanitizing already-clean content (containing no fence) returns it
unchanged. -/
theorem C7_sanitizer_idempotent (x : List Char) :
    sanitizeFixed (sanitizeFixed x) = sanitizeFixed x := by
  by_cases h1 : pyIn fencePython x = true
  · cases hf : firstOcc fencePython x with
    | none =>
      rw [pyIn_isSome, hf] at h1
      cases h1
    | some i0 =>
      cases he : pyFindFrom x tripleBacktick (i0 + 9) with
      | none =>
        have hx := sanitizeFixed_python_unterminated hf he
        rw [hx]
        exact hx
      | some e =>
        have hx := sanitizeFixed_eval_python hf he
        rw [hx]
        have htb := no_tb_in_extract he
        exact sanitizeFixed_no_fence (no_fencePython_of_no_tb htb) htb
  · have h1f : pyIn fencePython x = false := by
      cases hb : pyIn fencePython x with
      | false => rfl
      | true => exact absurd hb h1
    by_cases h2 : pyIn tripleBacktick x = true
    · cases hf : firstOcc tripleBacktick x with
      | none =>
        rw [pyIn_isSome, hf] at h2
        cases h2
      | some i0 =>
        cases he : pyFindFrom x tripleBacktick (i0 + 3) with
        | none =>
          have hx := sanitizeFixed_bare_unterminated h1f hf he
          rw [hx]
          exact hx
        | some e =>
          have hx := sanitizeFixed_eval_bare h1f hf he
          rw [hx]
          have htb := no_tb_in_extract he
          exact sanitizeFixed_no_fence (no_fencePython_of_no_tb htb) htb
    · have h2f : pyIn tripleBacktick x = false := by
        cases hb : pyIn tripleBacktick x with
        | false => rfl
        | true => exact absurd hb h2
      have hx := sanitizeFixed_no_fence h1f h2f
      rw [hx]
      exact hx

theorem applySanitize_of_fixed_none {d : PyDict} (h : pyDictGet d fixedKey = none) :
    applySanitize d = .ok d := by
  unfold applySanitize
  rw [h]

theorem applySanitize_of_fixed_str {d : PyDict} {t : List Char}
    (h : pyDictGet d fixedKey = some (.str t)) :
    applySanitize d = .ok (dictInsert d fixedKey (.str (sanitizeFixed t))) := by
  unfold applySanitize
  rw [h]

theorem parseLlmResponse_obj {s : List Char} {entries : PyDict}
    (h : jsonLoads (extractPayload s) = .ok (.obj entries))
    (hw : fieldsWellTyped entries = true) :
    ∃ d, parseLlmResponse s = .ok d := by
  unfold parseLlmResponse
  simp only [h]
  rw [pure_bind]
  have hw' := hw
  unfold fieldsWellTyped at hw'
  rw [Bool.and_eq_true] at hw'
  obtain ⟨hf, hi⟩ := hw'
  cases hgf : pyDictGet entries fixedKey with
  | none =>
    rw [applySanitize_of_fixed_none hgf, exceptOk_bind]
    exact ⟨entries, debugEval_ok_of_wellTyped hw⟩
  | some vf =>
    rw [hgf] at hf
    match vf, hf with
    | .str t, _ =>
      rw [applySanitize_of_fixed_str hgf, exceptOk_bind]
      refine ⟨_, debugEval_ok_of_wellTyped ?_⟩
      apply fieldsWellTyped_of_gets
      · exact Or.inr ⟨_, pyDictGet_dictInsert_self _ _ _⟩
      · rw [pyDictGet_dictInsert_ne _ _ (by decide)]
        cases hgi : pyDictGet entries issuesKey with
        | none => exact Or.inl rfl
        | some vi =>
          rw [hgi] at hi
          match vi, hi with
          | .arr l, _ => exact Or.inr ⟨l, rfl⟩

/-- C1: the claim says parse_llm_response never raises on any input.  It is
false: a payload that is valid JSON but not an object makes the function
raise; for the response text true, json.loads succeeds with the boolean
True and line 133 ('fixed_code' in result) raises TypeError (argument of
type bool is not iterable), uncaught by the function's own try/except. -/
theorem C1_parse_raises_counterexample :
    parseLlmResponse ("true".data) = .error PyErr.typeError := rfl

/-- C1 (amended): parse_llm_response returns a best-effort result dict
whenever strict JSON decoding of the extracted payload fails (the fallback
path is total, and missing fields keep their empty or false defaults), and
also when the payload decodes to a JSON object whose fixed_code member, if
present, is a string and whose issues_found member, if present, is an
array; but it can raise when the payload decodes to a non-object JSON
value or to an object with those members of other shapes. -/
theorem C1_parse_total_amended (s : List Char)
    (h : jsonLoads (extractPayload s) = .error () ∨
         ∃ entries, jsonLoads (extractPayload s) = .ok (.obj entries) ∧
           fieldsWellTyped entries = true) :
    ∃ d, parseLlmResponse s = .ok d := by
  rcases h with h | ⟨entries, h, hw⟩
  · exact ⟨_, parseLlmResponse_decode_error h⟩
  · exact parseLlmResponse_obj h hw

/-- C1 witness: the amended theorem applied at a concrete undecodable
response and at a concrete well-typed object response. -/
theorem C1_parse_total_amended_witness :
    (∃ d, parseLlmResponse ("not json at all".data) = .ok d) ∧
    (∃ d, parseLlmResponse ("\x7b\"has_issues\": true\x7d".data) = .ok d) := by
  constructor
  · exact C1_parse_total_amended _ (Or.inl rfl)
  · exact C1_parse_total_amended _ (Or.inr ⟨[("has_issues".data, .bool true)], rfl, rfl⟩)

/-- C5: for every run whose parsed result has a falsy has_issues (for
example the analysis response with has_issues false, empty issues and empty
fixed_code), clone_and_fix terminates in the NoIssues terminal (line 242)
and performs no file write, branch creation, commit, push or change-request
call. -/
theorem C5_no_issues_terminal (c : Collab) (repoUrl filePath baseBranch : List Char)
    (pr : List Char × List Char) (hr : resolveRepoId repoUrl = some pr)
    (hg : c.getRepoOk = true) (hc : c.cloneOk = true) (hf : c.fileExists = true)
    (a : List Char) (ha : c.analysis = some a) (hne : a.isEmpty = false)
    (d : PyDict) (hp : parseLlmResponse a = .ok d)
    (hhi : pyTruthy ((pyDictGet d hasIssuesKey).getD (.bool false)) = false) :
    cloneAndFix c repoUrl filePath baseBranch = (Outcome.noIssues, []) := by
  unfold cloneAndFix
  rw [hr, hg, hc, hf, ha]
  simp only [Bool.not_true, if_false, Bool.false_eq_true, hne, hp, hhi]
  rfl

/-- C5 witness: the theorem applied at the scenario-A response of the spec
with concrete collaborators. -/
theorem C5_no_issues_terminal_witness :
    cloneAndFix
      ⟨true, true, true, ("x = 1\n".data),
        some ("\x7b\"has_issues\": false, \"issues_found\": [], \"fixed_code\": \"\"\x7d".data),
        fun _ _ => true⟩
      ("https://github.com/o/r".data) ("src/u.py".data) ("main".data) =
      (Outcome.noIssues, []) := by
  exact C5_no_issues_terminal _ _ _ _ (("o".data, "r".data)) rfl rfl rfl rfl _ rfl rfl
    [("has_issues".data, .bool false), ("issues_found".data, .arr []),
     ("fixed_code".data, .str [])] rfl rfl

/-- C4: for every analysis response whose payload fails strict decoding,
contains the token true (so the substring heuristic recovers has_issues as
true), and whose fixed_code key is found but no quote pair delimits a value
(quote_end not after quote_start: no closing quote before the payload's
last closing brace), the fallback leaves fixed_code unset, the parse
returns without raising, and clone_and_fix aborts with the NoFixProvided
outcome (line 249) having performed no write, branch, commit, push or
change-request side effect. -/
theorem C4_truncated_no_fix (a : List Char)
    (hdec : jsonLoads (extractPayload a) = .error ())
    (htr : fallbackHas (extractPayload a) = true)
    (hkey : fbCodeStart (extractPayload a) ≠ -1)
    (hqe : ¬ fbQuoteStart (extractPayload a) < fbQuoteEnd (extractPayload a)) :
    parseLlmResponse a = .ok (fallbackResult (extractPayload a)) ∧
    pyDictGet (fallbackResult (extractPayload a)) hasIssuesKey = some (.bool true) ∧
    pyDictGet (fallbackResult (extractPayload a)) fixedKey = none ∧
    ∀ (c : Collab) (repoUrl filePath baseBranch : List Char) (pr : List Char × List Char),
      resolveRepoId repoUrl = some pr → c.getRepoOk = true → c.cloneOk = true →
      c.fileExists = true → c.analysis = some a → a.isEmpty = false →
      cloneAndFix c repoUrl filePath baseBranch = (Outcome.noFixProvided, []) := by
  have hff : fallbackFixed (extractPayload a) = none := by
    unfold fallbackFixed
    rw [if_pos hkey, if_neg hqe]
  have hparse := parseLlmResponse_decode_error hdec
  have hhas : pyDictGet (fallbackResult (extractPayload a)) hasIssuesKey = some (.bool true) := by
    rw [fallbackResult_get_has, htr]
  have hfix : pyDictGet (fallbackResult (extractPayload a)) fixedKey = none := by
    rw [fallbackResult_get_fixed, hff]
    rfl
  refine ⟨hparse, hhas, hfix, ?_⟩
  intro c repoUrl filePath baseBranch pr hr hg hc hf ha hne
  unfold cloneAndFix
  rw [hr, hg, hc, hf, ha]
  simp only [Bool.not_true, if_false, Bool.false_eq_true, hne, hparse, hhas, hfix]
  rfl

/-- C4 witness: the theorem applied at a concrete response truncated inside
the fixed_code string value (scenario C of the spec). -/
theorem C4_truncated_no_fix_witness :
    cloneAndFix
      ⟨true, true, true, ("x = 1\n".data),
        some ("\x7b\"has_issues\": true, \"issues_found\": [\"a\"], \"fixed_code\": \"def f(): pa".data),
        fun _ _ => true⟩
      ("https://github.com/o/r".data) ("src/u.py".data) ("main".data) =
      (Outcome.noFixProvided, []) := by
  exact (C4_truncated_no_fix
      ("\x7b\"has_issues\": true, \"issues_found\": [\"a\"], \"fixed_code\": \"def f(): pa".data)
      rfl rfl (by decide) (by decide)).2.2.2
    _ _ _ _ (("o".data, "r".data)) rfl rfl rfl rfl rfl rfl

/-- C6: the claim states the three-case selection algorithm with no
trimming in the fenced cases.  It is false as stated: the source applies
.strip() to the selected span in every branch (lines 83, 87, 89), so for
the response given here the claimed payload keeps its surrounding spaces
while the code returns it trimmed. -/
theorem C6_extraction_counterexample :
    extractPayloadSpec ("```json X ```".data) = some (" X ".data) ∧
    extractPayload ("```json X ```".data) = "X".data ∧
    ("X".data : List Char) ≠ " X ".data := ⟨rfl, rfl, by decide⟩

/-- C6 (amended): the payload is selected by exactly the claimed three-case
algorithm, except that in the two fenced cases the selected span is
additionally trimmed of surrounding whitespace (as in the third case):
whenever the claimed algorithm is defined (the closing marker it refers to
exists), the code's extraction equals the trim of the claimed span. -/
theorem C6_extraction_amended (s r : List Char) (h : extractPayloadSpec s = some r) :
    extractPayload s = pyStrip r := by
  unfold extractPayloadSpec at h
  by_cases h1 : pyIn fenceJson s = true
  · rw [if_pos h1] at h
    cases hf : firstOcc fenceJson s with
    | none => rw [hf] at h; cases h
    | some i =>
      rw [hf] at h
      have h' : (match pyFindFrom s tripleBacktick (i + 7) with
        | some e => some (pySliceNat s (i + 7) e)
        | none => none) = some r := h
      clear h
      cases he : pyFindFrom s tripleBacktick (i + 7) with
      | none => rw [he] at h'; cases h'
      | some e =>
        rw [he] at h'
        injection h' with h'
        subst h'
        unfold extractPayload
        rw [if_pos h1]
        have hs : epJsonStart s = ((i + 7 : Nat) : Int) := by
          unfold epJsonStart
          rw [pyFind_zero_eq_iff.mpr hf]
          push_cast
          ring
        have he' : epJsonEnd s = ((e : Nat) : Int) := by
          unfold epJsonEnd
          rw [hs]
          exact pyFind_ofNat_eq_iff.mpr he
        rw [hs, he']
        obtain ⟨hge, hocc, _⟩ := pyFindFrom_eq_some_iff.mp he
        have hb : e + 3 ≤ s.length := by
          have h3 := occursAt_bound (by decide) hocc
          have : tripleBacktick.length = 3 := rfl
          omega
        have hocc0 : occursAt s fenceJson i := firstOcc_some_occurs hf
        have hi7 : i + 7 ≤ s.length := by
          have h7 := occursAt_bound (by decide) hocc0
          have : fenceJson.length = 7 := rfl
          omega
        rw [pySlice_ofNat (by omega) (by omega)]
  · rw [if_neg h1] at h
    by_cases h2 : pyIn tripleBacktick s = true
    · rw [if_pos h2] at h
      cases hf : firstOcc tripleBacktick s with
      | none => rw [hf] at h; cases h
      | some i =>
        rw [hf] at h
        have h' : (match pyFindFrom s tripleBacktick (i + 3) with
          | some e => some (pySliceNat s (i + 3) e)
          | none => none) = some r := h
        clear h
        cases he : pyFindFrom s tripleBacktick (i + 3) with
        | none => rw [he] at h'; cases h'
        | some e =>
          rw [he] at h'
          injection h' with h'
          subst h'
          unfold extractPayload
          rw [if_neg h1, if_pos h2]
          have hs : epBareStart s = ((i + 3 : Nat) : Int) := by
            unfold epBareStart
            rw [pyFind_zero_eq_iff.mpr hf]
            push_cast
            ring
          have he' : epBareEnd s = ((e : Nat) : Int) := by
            unfold epBareEnd
            rw [hs]
            exact pyFind_ofNat_eq_iff.mpr he
          rw [hs, he']
          obtain ⟨hge, hocc, _⟩ := pyFindFrom_eq_some_iff.mp he
          have hb : e + 3 ≤ s.length := by
            have h3 := occursAt_bound (by decide) hocc
            have : tripleBacktick.length = 3 := rfl
            omega
          have hocc0 : occursAt s tripleBacktick i := firstOcc_some_occurs hf
          have hi3 : i + 3 ≤ s.length := by
            have h7 := occursAt_bound (by decide) hocc0
            have : tripleBacktick.length = 3 := rfl
            omega
          rw [pySlice_ofNat (by omega) (by omega)]
    · rw [if_neg h2] at h
      injection h with h
      subst h
      unfold extractPayload
      rw [if_neg h1, if_neg h2]
      exact (pyStrip_idem s).symm

/-- C6 witness: the amended theorem applied at a concrete fenced
response. -/
theorem C6_extraction_amended_witness :
    extractPayload ("```json \x7b\x7d ```".data) = pyStrip (" \x7b\x7d ".data) :=
  C6_extraction_amended _ _ rfl

/-- C10: the claim states the unterminated-fence extraction yields the raw
substring from just after the opener up to but excluding the final
character.  It is false as stated: the source strips the slice (line 83),
so surrounding whitespace of that substring is removed. -/
theorem C10_unterminated_counterexample :
    firstOcc fenceJson ("```json a  ".data) = some 0 ∧
    pyFindFrom ("```json a  ".data) tripleBacktick 7 = none ∧
    extractPayload ("```json a  ".data) = "a".data ∧
    ((("```json a  ".data).take ((("```json a  ".data)).length - 1)).drop 7 : List Char) =
      " a ".data ∧
    ("a".data : List Char) ≠ " a ".data := ⟨rfl, rfl, rfl, rfl, by decide⟩

/-- C10 (amended): when a fence opener (JSON-tagged or bare) has no closing
marker after it, the extraction does not raise; the not-found sentinel -1
becomes the slice end, so the selected span runs from just after the opener
up to but excluding the final character of the text, and the code returns
that span trimmed of surrounding whitespace. -/
theorem C10_unterminated_amended (s : List Char) :
    (∀ i, firstOcc fenceJson s = some i → pyFindFrom s tripleBacktick (i + 7) = none →
      extractPayload s = pyStrip ((s.take (s.length - 1)).drop (i + 7))) ∧
    (pyIn fenceJson s = false → ∀ i, firstOcc tripleBacktick s = some i →
      pyFindFrom s tripleBacktick (i + 3) = none →
      extractPayload s = pyStrip ((s.take (s.length - 1)).drop (i + 3))) := by
  constructor
  · intro i hf he
    have h1 : pyIn fenceJson s = true := by rw [pyIn_isSome, hf]; rfl
    unfold extractPayload
    rw [if_pos h1]
    have hs : epJsonStart s = ((i + 7 : Nat) : Int) := by
      unfold epJsonStart
      rw [pyFind_zero_eq_iff.mpr hf]
      push_cast
      ring
    have he' : epJsonEnd s = -1 := by
      unfold epJsonEnd
      rw [hs]
      exact pyFind_ofNat_eq_negOne_iff.mpr he
    rw [hs, he']
    have hocc0 : occursAt s fenceJson i := firstOcc_some_occurs hf
    have hi7 : i + 7 ≤ s.length := by
      have h7 := occursAt_bound (by decide) hocc0
      have : fenceJson.length = 7 := rfl
      omega
    unfold pySlice
    rw [pyAdjEnd_ofNat_of_le hi7, pyAdjEnd_negOne]
    rfl
  · intro h1 i hf he
    have h2 : pyIn tripleBacktick s = true := by rw [pyIn_isSome, hf]; rfl
    unfold extractPayload
    rw [if_neg (by simp [h1]), if_pos h2]
    have hs : epBareStart s = ((i + 3 : Nat) : Int) := by
      unfold epBareStart
      rw [pyFind_zero_eq_iff.mpr hf]
      push_cast
      ring
    have he' : epBareEnd s = -1 := by
      unfold epBareEnd
      rw [hs]
      exact pyFind_ofNat_eq_negOne_iff.mpr he
    rw [hs, he']
    have hocc0 : occursAt s tripleBacktick i := firstOcc_some_occurs hf
    have hi3 : i + 3 ≤ s.length := by
      have h3 := occursAt_bound (by decide) hocc0
      have : tripleBacktick.length = 3 := rfl
      omega
    unfold pySlice
    rw [pyAdjEnd_ofNat_of_le hi3, pyAdjEnd_negOne]
    rfl

/-- C10 witness: the amended theorem applied at a json-fenced and at a
bare-fenced unterminated response. -/
theorem C10_unterminated_amended_witness :
    extractPayload ("```json a ".data) =
      pyStrip ((("```json a ".data).take (("```json a ".data).length - 1)).drop (0 + 7)) ∧
    extractPayload ("``` b ".data) =
      pyStrip ((("``` b ".data).take (("``` b ".data).length - 1)).drop (0 + 3)) :=
  ⟨(C10_unterminated_amended (("```json a ".data))).1 0 rfl rfl,
   (C10_unterminated_amended (("``` b ".data))).2 rfl 0 rfl rfl⟩

/-- C8: the claim's "passes the placeholder check exactly when original
contained it" reads the original-containment test literally, but the
source compares against original_code.lower() (line 175): an original
containing only an uppercase variant of the phrase suppresses the
rejection although the exact phrase never occurs in it literally, and the
fixed content passes the whole validation. -/
theorem C8_placeholder_counterexample :
    validateFixedCode (fun _ _ => true) ("YOUR CODE HERE".data) ("your code here".data)
      ("f.py".data) = true ∧
    pyIn ("your code here".data) ("YOUR CODE HERE".data) = false := ⟨rfl, rfl⟩

/-- C8 (amended): validate rejects whenever the lowercased fixed code
contains the stub phrase your code here and the lowercased original does
not; and when original contains the phrase (in particular literally), the
placeholder loop cannot fire on that phrase or on its contained sub-phrase
code here — occurrence in original is tested case-insensitively, so
case-insensitive containment suffices to suppress the rejection. -/
theorem C8_placeholder_amended :
    (∀ (cmp : List Char → List Char → Bool) (o f n : List Char),
      pyIn ("your code here".data) (pyLower f) = true →
      pyIn ("your code here".data) (pyLower o) = false →
      validateFixedCode cmp o f n = false) ∧
    (∀ o f : List Char, pyIn ("your code here".data) o = true →
      placeholderHit o f ≠ some ("code here".data) ∧
      placeholderHit o f ≠ some ("your code here".data)) := by
  constructor
  · intro cmp o f n hf ho
    unfold validateFixedCode
    cases hh : placeholderHit o f with
    | some p => rfl
    | none =>
      exfalso
      unfold placeholderHit at hh
      rw [List.find?_eq_none] at hh
      have hm : ("your code here".data) ∈ placeholders := by decide
      have hand := hh _ hm
      simp [hf, ho] at hand
  · intro o f ho
    have holow : pyIn ("your code here".data) (pyLower o) = true :=
      pyIn_lower_of ho (by decide)
    have hsub : pyIn ("code here".data) (pyLower o) = true :=
      pyIn_trans (by decide) holow
    constructor
    · intro hh
      have hp := List.find?_some hh
      simp [hsub] at hp
    · intro hh
      have hp := List.find?_some hh
      simp [holow] at hp

/-- C8 witness: the amended theorem applied at concrete inputs for both
parts. -/
theorem C8_placeholder_amended_witness :
    validateFixedCode (fun _ _ => true) ("print(2)\n".data) ("# your code here\n".data)
      ("g.py".data) = false ∧
    placeholderHit ("use your code here now".data) ("anything".data) ≠
      some ("your code here".data) :=
  ⟨C8_placeholder_amended.1 (fun _ _ => true) _ _ _ (by decide) (by decide),
   (C8_placeholder_amended.2 _ ("anything".data) (by decide)).2⟩

theorem git_no_straddle (u : List Char) (hne : u ≠ [])
    (hp : (".git".data).isPrefixOf u = false) :
    (".git".data).isPrefixOf (u ++ ".git".data) = false := by
  match u with
  | [] => exact absurd rfl hne
  | [a] => simp [List.isPrefixOf]
  | [a, b] => simp [List.isPrefixOf]
  | [a, b, c] => simp [List.isPrefixOf]
  | a :: b :: c :: d :: t =>
    simp only [List.isPrefixOf, List.cons_append] at hp ⊢
    simpa using hp

theorem pyReplaceAux_append_git {u : List Char} (h : ∀ i, ¬ occursAt u (".git".data) i) :
    ∀ fuel, u.length < fuel → pyReplaceAux fuel (u ++ ".git".data) (".git".data) [] = u := by
  induction u with
  | nil =>
    intro fuel hf
    match fuel, hf with
    | f + 1, _ =>
      show pyReplaceAux (f + 1) ([] ++ ".git".data) (".git".data) [] = []
      rw [List.nil_append]
      show pyReplaceAux (f + 1) ('.' :: "git".data) (".git".data) [] = []
      simp only [pyReplaceAux]
      rw [if_pos (by decide)]
      show [] ++ pyReplaceAux f (("git".data).drop ((".git".data).length - 1)) (".git".data) [] = []
      rw [List.nil_append]
      have hd : ("git".data).drop ((".git".data).length - 1) = [] := by decide
      rw [hd]
      cases f <;> rfl
  | cons a t ih =>
    intro fuel hf
    match fuel, hf with
    | f + 1, hf =>
      have hp0 : (".git".data).isPrefixOf (a :: t) = false := by
        cases hb : (".git".data).isPrefixOf (a :: t) with
        | false => rfl
        | true => exact absurd ((occursAt_zero_iff _ _).mpr hb) (h 0)
      have hnp : (".git".data).isPrefixOf ((a :: t) ++ ".git".data) = false :=
        git_no_straddle (a :: t) (by simp) hp0
      show pyReplaceAux (f + 1) ((a :: t) ++ ".git".data) (".git".data) [] = a :: t
      rw [List.cons_append]
      simp only [pyReplaceAux]
      rw [if_neg (by rw [List.cons_append] at hnp; simp [hnp])]
      have htail := ih (fun i hocc => h (i + 1) ((occursAt_cons_succ _ _ _ _).mpr hocc)) f
        (by simp only [List.length_cons] at hf; omega)
      rw [htail]

theorem pyReplace_append_git {u : List Char} (h : pyIn (".git".data) u = false) :
    pyReplace (u ++ ".git".data) (".git".data) [] = u := by
  unfold pyReplace
  apply pyReplaceAux_append_git (pyIn_eq_false_iff.mp h)
  rw [List.length_append]
  have : (".git".data).length = 4 := rfl
  omega

theorem pyRstripChar_eq_self {s : List Char} {c : Char} (h : s.getLast? ≠ some c) :
    pyRstripChar s c = s := by
  unfold pyRstripChar
  have hdw : s.reverse.dropWhile (fun d => d == c) = s.reverse := by
    cases hr : s.reverse with
    | nil => rfl
    | cons a t =>
      rw [List.dropWhile_cons]
      rw [if_neg ?_]
      intro hb
      have ha : a = c := beq_iff_eq.mp hb
      apply h
      rw [← List.head?_reverse, hr, ha]
      rfl
  rw [hdw, List.reverse_reverse]

theorem pyRstripChar_append_single (u : List Char) (c : Char) :
    pyRstripChar (u ++ [c]) c = pyRstripChar u c := by
  unfold pyRstripChar
  rw [List.reverse_append]
  show ((c :: u.reverse).dropWhile (fun d => d == c)).reverse = _
  rw [List.dropWhile_cons, if_pos (by simp)]

/-- C9: the claim says the normalization strips a .git suffix and only a
suffix, preserving the identifier's other characters.  It is false: line
198 uses str.replace, which removes every occurrence of .git anywhere, so
an identifier whose repository name merely contains .git is mangled. -/
theorem C9_normalize_counterexample :
    resolveRepoId ("https://github.com/owner/my.gitrepo".data) =
      some ("owner".data, "myrepo".data) ∧
    ("myrepo".data : List Char) ≠ "my.gitrepo".data := ⟨rfl, by decide⟩

/-- C9 (amended): the normalization removes all trailing slashes and every
occurrence of the substring .git anywhere in the identifier (not only a
suffix); on identifiers that contain .git only as their suffix and do not
end with a slash before it, this coincides with suffix stripping, a lone
trailing slash is always dropped, and the run aborts with the
InvalidIdentifier outcome exactly when fewer than two slash-separated
segments remain. -/
theorem C9_normalize_amended :
    (∀ u : List Char, pyIn (".git".data) u = false → u.getLast? ≠ some '/' →
      resolveRepoId (u ++ ".git".data) = resolveRepoId u) ∧
    (∀ u : List Char, resolveRepoId (u ++ ['/']) = resolveRepoId u) ∧
    (∀ (c : Collab) (u fp bb : List Char),
      cloneAndFix c u fp bb = (Outcome.invalidIdentifier, []) ↔ resolveRepoId u = none) := by
  refine ⟨?_, ?_, ?_⟩
  · intro u hg hl
    simp only [resolveRepoId]
    have h1 : pyRstripChar (u ++ ".git".data) '/' = u ++ ".git".data := by
      apply pyRstripChar_eq_self
      rw [List.getLast?_append]
      intro hh
      have : (".git".data).getLast? = some 't' := rfl
      rw [this] at hh
      cases hh
    rw [h1, pyRstripChar_eq_self hl]
    rw [pyReplace_append_git hg, pyReplace_of_noOcc hg]
  · intro u
    simp only [resolveRepoId]
    rw [pyRstripChar_append_single]
  · intro c u fp bb
    cases hr : resolveRepoId u with
    | none =>
      unfold cloneAndFix
      rw [hr]
      simp
    | some pr =>
      unfold cloneAndFix
      rw [hr]
      constructor
      · intro h
        exfalso
        revert h
        repeat' split
        all_goals intro h
        all_goals try simp_all
        all_goals (repeat' split at h)
        all_goals simp_all
      · intro h
        cases h

/-- Witness for C9 (amended): a canonical https identifier with a real .git
suffix and no trailing slash is normalized to the same pair as without the
suffix, a trailing slash is dropped, and a single-segment identifier makes
the run end with InvalidIdentifier and no side effects. -/
theorem C9_normalize_amended_witness :
    (pyIn (".git".data) ("https://github.com/o/r".data) = false ∧
      ("https://github.com/o/r".data : List Char).getLast? ≠ some '/' ∧
      resolveRepoId ("https://github.com/o/r".data ++ ".git".data) =
        resolveRepoId ("https://github.com/o/r".data)) ∧
    resolveRepoId ("https://github.com/o/r".data ++ ['/']) =
      resolveRepoId ("https://github.com/o/r".data) ∧
    cloneAndFix ⟨true, true, true, [], none, fun _ _ => true⟩ ("nope".data) [] [] =
      (Outcome.invalidIdentifier, []) :=
  ⟨⟨by decide, by decide,
      C9_normalize_amended.1 ("https://github.com/o/r".data) (by decide) (by decide)⟩,
    C9_normalize_amended.2.1 ("https://github.com/o/r".data),
    (C9_normalize_amended.2.2 ⟨true, true, true, [], none, fun _ _ => true⟩
      ("nope".data) [] []).mpr rfl⟩

/-- C2: false on two counts.  On a trailing-comma payload json.loads fails,
the fallback captures the two-space quoted fixed_code value, and the strip
of line 131 empties it: parsing succeeds with has_issues true and a
successful extraction (fallbackFixed returns some), yet fixed_code is
empty.  On a payload with no quote after code_start + 13, find returns -1
and quote_start becomes 0: the captured fixed_code is the payload text
from position 0, before the key itself at position 10 — text drawn from
elsewhere in the payload. -/
theorem C2_fix_nonempty_counterexample :
    (parseLlmResponse ("\x7b\"has_issues\": true, \"fixed_code\": \"  \",\x7d".data) =
        .ok [(hasIssuesKey, .bool true), (fixedKey, .str [])] ∧
      fallbackFixed ("\x7b\"has_issues\": true, \"fixed_code\": \"  \",\x7d".data) =
        some []) ∧
    (parseLlmResponse ("\"zz\" junk \"fixed_code\": x\x7d".data) =
        .ok [(hasIssuesKey, .bool false),
             (fixedKey, .str ("\"zz\" junk \"fixed_code".data))] ∧
      fbCodeStart ("\"zz\" junk \"fixed_code\": x\x7d".data) = 10 ∧
      fbQuoteStart ("\"zz\" junk \"fixed_code\": x\x7d".data) = 0) :=
  ⟨⟨rfl, rfl⟩, rfl, by decide, by decide⟩

/-- C2 (amended): the fallback never fabricates fixed_code out of thin air
— whenever it reports a value, that value is exactly the strip of the
unescape of the payload slice between quote_start and quote_end (so it can
be empty, and can start before the key when the quote search fails); and
whenever the key is present and the quote search after code_start + 13
succeeds, the capture does start strictly after the key position. -/
theorem C2_fix_nonempty_amended :
    (∀ (js f : List Char), fallbackFixed js = some f →
      f = pyStrip (unescFixed (pySlice js (fbQuoteStart js) (fbQuoteEnd js)))) ∧
    (∀ (js : List Char) (k : Nat), fbCodeStart js = (k : Int) →
      pyFind js [quoteCh] ((k : Int) + 13) ≠ -1 →
      fbCodeStart js < fbQuoteStart js) := by
  constructor
  · intro js f h
    unfold fallbackFixed at h
    split at h
    · split at h
      · injection h with h2
        exact h2.symm
      · cases h
    · cases h
  · intro js k hk hq
    have h1 : ((k : Int) + 13) = ((k + 13 : Nat) : Int) := by push_cast; ring
    rw [h1] at hq
    have h2 := pyFind_ge_start hq
    unfold fbQuoteStart
    rw [hk, h1]
    omega

/-- Witness for C2 (amended) at the trailing-comma payload: the reported
fixed_code is the (empty) strip of the unescaped capture, and with the key
at 21 and a quote found after 34 the capture starts after the key. -/
theorem C2_fix_nonempty_amended_witness :
    fallbackFixed ("\x7b\"has_issues\": true, \"fixed_code\": \"  \",\x7d".data) =
      some [] ∧
    ([] : List Char) =
      pyStrip (unescFixed (pySlice ("\x7b\"has_issues\": true, \"fixed_code\": \"  \",\x7d".data)
        (fbQuoteStart ("\x7b\"has_issues\": true, \"fixed_code\": \"  \",\x7d".data))
        (fbQuoteEnd ("\x7b\"has_issues\": true, \"fixed_code\": \"  \",\x7d".data)))) ∧
    fbCodeStart ("\x7b\"has_issues\": true, \"fixed_code\": \"  \",\x7d".data) = (21 : Int) ∧
    pyFind ("\x7b\"has_issues\": true, \"fixed_code\": \"  \",\x7d".data) [quoteCh]
      ((21 : Int) + 13) ≠ -1 ∧
    fbCodeStart ("\x7b\"has_issues\": true, \"fixed_code\": \"  \",\x7d".data) <
      fbQuoteStart ("\x7b\"has_issues\": true, \"fixed_code\": \"  \",\x7d".data) :=
  ⟨rfl,
    C2_fix_nonempty_amended.1 ("\x7b\"has_issues\": true, \"fixed_code\": \"  \",\x7d".data) [] rfl,
    rfl, by decide,
    C2_fix_nonempty_amended.2 ("\x7b\"has_issues\": true, \"fixed_code\": \"  \",\x7d".data) 21
      rfl (by decide)⟩

/-- C3: false.  The fallback issues recovery of lines 103-107 anchors at
the FIRST occurrence of the quoted issues_found key.  A payload whose
decode fails and that contains a decoy issues_found field before the good
one has every substring the claim requires, yet the scanner reads the
decoy's bracket span [1], finds no quoted strings there, and recovers the
empty issues list instead of the sequence a, b. -/
theorem C3_fallback_equiv_counterexample :
    jsonLoads ("\x7b\"issues_found\": [1], \"has_issues\": true, \"issues_found\": [\"a\",\"b\"], \"fixed_code\": \"x\",\x7d".data) =
      .error () ∧
    pyIn ("\"has_issues\": true".data)
      ("\x7b\"issues_found\": [1], \"has_issues\": true, \"issues_found\": [\"a\",\"b\"], \"fixed_code\": \"x\",\x7d".data) = true ∧
    pyIn ("\"issues_found\": [\"a\",\"b\"]".data)
      ("\x7b\"issues_found\": [1], \"has_issues\": true, \"issues_found\": [\"a\",\"b\"], \"fixed_code\": \"x\",\x7d".data) = true ∧
    pyIn ("\"fixed_code\": \"x\"".data)
      ("\x7b\"issues_found\": [1], \"has_issues\": true, \"issues_found\": [\"a\",\"b\"], \"fixed_code\": \"x\",\x7d".data) = true ∧
    fallbackIssues ("\x7b\"issues_found\": [1], \"has_issues\": true, \"issues_found\": [\"a\",\"b\"], \"fixed_code\": \"x\",\x7d".data) =
      some [] ∧
    pyDictGet (fallbackScan ("\x7b\"issues_found\": [1], \"has_issues\": true, \"issues_found\": [\"a\",\"b\"], \"fixed_code\": \"x\",\x7d".data)) issuesKey =
      some (.arr []) ∧
    some ([] : List (List Char)) ≠ some ["a".data, "b".data] :=
  ⟨rfl, rfl, rfl, rfl, rfl, rfl, by decide⟩

/-- C3 (amended): the fallback/primary equivalence holds once the decoy of
the counterexample is excluded: when the first occurrence of the quoted
issues_found key is the good field itself, the first occurrence of the
quoted fixed_code key carries a quoted nonempty value whose closing quote
is the last quote before the final closing brace, and the value holds at
least one printable non-escape character, the fallback dict recovers
exactly the issues sequence a, b and a non-empty fixed_code. -/
theorem C3_fallback_equiv_amended
    (js code : List Char) (i j n : Nat)
    (hdec : jsonLoads js = .error ())
    (hIfind : pyFindFrom js issuesKeyQuoted 0 = some i)
    (hIpat : occursAt js ("\"issues_found\": [\"a\",\"b\"]".data) i)
    (hFfind : pyFindFrom js fixedKeyQuoted 0 = some j)
    (hFpat : occursAt js (("\"fixed_code\": \"".data ++ code) ++ [quoteCh]) j)
    (hcode : code ≠ [])
    (hbrace : fbClosingBrace js = ((n : Nat) : Int))
    (hn : j + 16 + code.length ≤ n)
    (hnoq : ∀ k, k < n → j + 15 + code.length < k → ¬ occursAt js [quoteCh] k)
    (hgood : ∃ c ∈ code, isPySpace c = false ∧ c ≠ '\\' ∧ c ≠ 'n' ∧ c ≠ quoteCh) :
    pyDictGet (fallbackScan js) issuesKey =
      some (.arr [.str ("a".data), .str ("b".data)]) ∧
    ∃ f, pyDictGet (fallbackScan js) fixedKey = some (.str f) ∧ f ≠ [] := by
  have hlenI : ("\"issues_found\": [\"a\",\"b\"]".data).length = 25 := rfl
  have hpre15 : ("\"fixed_code\": \"".data).length = 15 := rfl
  have hq1 : ([quoteCh] : List Char).length = 1 := rfl
  have hclen : 0 < code.length := List.length_pos.mpr hcode
  have hIS : fbIssuesStart js = (i : Int) := by
    unfold fbIssuesStart
    rw [pyFind_zero_eq_iff, ← pyFindFrom_zero]
    exact hIfind
  have hIbound : i + 25 ≤ js.length := by
    have h := @occursAt_bound js ("\"issues_found\": [\"a\",\"b\"]".data) i (by decide) hIpat
    omega
  have hAS : fbArrayStart js = ((i + 16 : Nat) : Int) := by
    unfold fbArrayStart
    rw [hIS, pyFind_ofNat_eq_iff]
    refine pyFindFrom_char_window (by omega) ?_ ?_
    · rw [@charAt_of_occursAt js ("\"issues_found\": [\"a\",\"b\"]".data) i hIpat 16 (by decide)]
      rfl
    · intro k hk1 hk2
      have hkk : k = i + (k - i) := by omega
      rw [hkk, @charAt_of_occursAt js ("\"issues_found\": [\"a\",\"b\"]".data) i hIpat (k - i) (by omega)]
      have hball : ∀ m, m < 16 →
          ¬ (((("\"issues_found\": [\"a\",\"b\"]".data).drop m).head?) = some '[') := by decide
      exact hball (k - i) (by omega)
  have hAE : fbArrayEnd js = ((i + 24 : Nat) : Int) := by
    unfold fbArrayEnd
    rw [hAS, pyFind_ofNat_eq_iff]
    refine pyFindFrom_char_window (by omega) ?_ ?_
    · rw [@charAt_of_occursAt js ("\"issues_found\": [\"a\",\"b\"]".data) i hIpat 24 (by decide)]
      rfl
    · intro k hk1 hk2
      have hkk : k = i + (k - i) := by omega
      rw [hkk, @charAt_of_occursAt js ("\"issues_found\": [\"a\",\"b\"]".data) i hIpat (k - i) (by omega)]
      have hball : ∀ m, m < 24 → 16 ≤ m →
          ¬ (((("\"issues_found\": [\"a\",\"b\"]".data).drop m).head?) = some ']') := by decide
      exact hball (k - i) (by omega) (by omega)
  have hIT : fbIssuesText js = "\"a\",\"b\"".data := by
    unfold fbIssuesText
    rw [hAS, hAE]
    have hc1 : ((i + 16 : Nat) : Int) + 1 = ((i + 17 : Nat) : Int) := by push_cast; ring
    rw [hc1]
    have h2 : pySlice js ((i + 17 : Nat) : Int) ((i + 24 : Nat) : Int) =
        pySliceNat js (i + 17) (i + 24) :=
      pySlice_ofNat (by omega) (by omega)
    rw [h2]
    have h1 : pySliceNat js (i + 17) (i + 24) =
        pySliceNat ("\"issues_found\": [\"a\",\"b\"]".data) 17 24 :=
      @pySliceNat_of_occursAt js ("\"issues_found\": [\"a\",\"b\"]".data) i hIpat 17 24
        (by omega) (by decide)
    exact h1.trans rfl
  have hIssues : fallbackIssues js = some ["a".data, "b".data] := by
    unfold fallbackIssues
    rw [hIS, hIT]
    rw [if_pos (show ((i : Int)) ≠ -1 by omega)]
    rfl
  have hCS : fbCodeStart js = (j : Int) := by
    unfold fbCodeStart
    rw [pyFind_zero_eq_iff, ← pyFindFrom_zero]
    exact hFfind
  have hFpre : occursAt js ("\"fixed_code\": \"".data) j := by
    unfold occursAt at hFpat ⊢
    rw [List.isPrefixOf_iff_prefix] at hFpat ⊢
    exact List.IsPrefix.trans ⟨code ++ [quoteCh], by rw [← List.append_assoc]⟩ hFpat
  have hQS : fbQuoteStart js = ((j + 15 : Nat) : Int) := by
    unfold fbQuoteStart
    rw [hCS]
    have hc1 : (j : Int) + 13 = ((j + 13 : Nat) : Int) := by push_cast; ring
    rw [hc1]
    have hfind : pyFind js [quoteCh] ((j + 13 : Nat) : Int) = ((j + 14 : Nat) : Int) := by
      rw [pyFind_ofNat_eq_iff]
      refine pyFindFrom_char_window (by omega) ?_ ?_
      · rw [@charAt_of_occursAt js ("\"fixed_code\": \"".data) j hFpre 14 (by decide)]
        rfl
      · intro k hk1 hk2
        have hkk : k = j + 13 := by omega
        rw [hkk, @charAt_of_occursAt js ("\"fixed_code\": \"".data) j hFpre 13 (by decide)]
        decide
    rw [hfind]
    push_cast
    ring
  have hnlen : n + 1 ≤ js.length := by
    have hbrace' : pyRfind js braceClose 0 ((js.length : Nat) : Int) = ((n : Nat) : Int) := hbrace
    have hocc := pyRfind_ofNat_occurs hbrace'
    rw [pyAdjEnd_ofNat_of_le (le_refl js.length), List.take_length] at hocc
    have hb := @occursAt_bound js braceClose n (by decide) hocc
    have hb1 : braceClose.length = 1 := rfl
    omega
  have hfullb := @occursAt_bound js (("\"fixed_code\": \"".data ++ code) ++ [quoteCh]) j
    (by simp) hFpat
  have hfulllen : ((("\"fixed_code\": \"".data ++ code) ++ [quoteCh])).length = 16 + code.length := by
    rw [List.length_append, List.length_append, hpre15, hq1]
    omega
  have hQE : fbQuoteEnd js = ((j + 15 + code.length : Nat) : Int) := by
    unfold fbQuoteEnd
    rw [hQS, hbrace]
    apply pyRfind_eq_of
    · decide
    · omega
    · rw [occursAt_singleton_iff]
      have hassoc : j + 15 + code.length = j + (15 + code.length) := by omega
      rw [hassoc, @charAt_of_occursAt js (("\"fixed_code\": \"".data ++ code) ++ [quoteCh]) j
        hFpat (15 + code.length) (by omega)]
      have hd : ((("\"fixed_code\": \"".data ++ code) ++ [quoteCh]).drop (15 + code.length)) =
          [quoteCh] := by
        have h2 : 15 + code.length = ("\"fixed_code\": \"".data ++ code).length := by
          rw [List.length_append, hpre15]
        rw [h2, List.drop_left]
      rw [hd]
      rfl
    · omega
    · omega
    · intro k hk1 hk2
      exact hnoq k (by omega) (by omega)
  have hslice : pySlice js ((j + 15 : Nat) : Int) ((j + 15 + code.length : Nat) : Int) = code := by
    have h2 : pySlice js ((j + 15 : Nat) : Int) ((j + 15 + code.length : Nat) : Int) =
        pySliceNat js (j + 15) (j + 15 + code.length) :=
      pySlice_ofNat (by omega) (by omega)
    rw [h2]
    have hassoc : j + 15 + code.length = j + (15 + code.length) := by omega
    rw [hassoc]
    rw [@pySliceNat_of_occursAt js (("\"fixed_code\": \"".data ++ code) ++ [quoteCh]) j hFpat
      15 (15 + code.length) (by omega) (by omega)]
    unfold pySliceNat
    have h3 : 15 + code.length = ("\"fixed_code\": \"".data ++ code).length := by
      rw [List.length_append, hpre15]
    rw [h3, List.take_left]
    have h4 : (15 : Nat) = ("\"fixed_code\": \"".data).length := hpre15.symm
    rw [h4, List.drop_left]
  have hFix : fallbackFixed js = some (pyStrip (unescFixed code)) := by
    unfold fallbackFixed
    rw [hCS, hQS, hQE, hslice]
    rw [if_pos (show ((j : Int)) ≠ -1 by omega)]
    rw [if_pos (show ((j + 15 : Nat) : Int) < ((j + 15 + code.length : Nat) : Int) by omega)]
  refine ⟨?_, pyStrip (unescFixed code), ?_, ?_⟩
  · rw [fallbackScan_get_issues, hIssues]
    rfl
  · rw [fallbackScan_get_fixed, hFix]
    rfl
  · obtain ⟨c, hcmem, hcsp, hc1, hc2, hc3⟩ := hgood
    exact pyStrip_ne_nil_of (mem_unescFixed_of hcmem hc1 hc2 hc3) hcsp

/-- Witness for C3 (amended): on a trailing-comma payload whose first
issues_found occurrence is the good field and whose fixed_code value is x,
the fallback recovers issues a, b and a non-empty fixed_code. -/
theorem C3_fallback_equiv_amended_witness :
    pyDictGet (fallbackScan ("\x7b\"has_issues\": true, \"issues_found\": [\"a\",\"b\"], \"fixed_code\": \"x\",\x7d".data)) issuesKey =
      some (.arr [.str ("a".data), .str ("b".data)]) ∧
    ∃ f, pyDictGet (fallbackScan ("\x7b\"has_issues\": true, \"issues_found\": [\"a\",\"b\"], \"fixed_code\": \"x\",\x7d".data)) fixedKey =
      some (.str f) ∧ f ≠ [] :=
  C3_fallback_equiv_amended
    ("\x7b\"has_issues\": true, \"issues_found\": [\"a\",\"b\"], \"fixed_code\": \"x\",\x7d".data)
    ("x".data) 21 48 66 rfl rfl (by decide) rfl (by decide) (by decide) rfl (by decide)
    (by decide) (by decide)
